import Mathlib

/-!
The project scaffolder of the `init` command of atlas

A shallow embedding of `cmd/init.go`.

* Go strings are Lean `String`s; Go `len` is the UTF-8 byte length.
* `text/template` is embedded as the fragment the command relies on: text, and actions
  that are a single field reference `.Name`, evaluated on a map with string values.  A body
  with any other action is not rendered by the embedding (`templateParse` gives `none`, as
  for a body `template.Must` panics on).
* The operating system is a world: a directory tree (a map from absolute paths to
  directories and regular files), for each regular file the other paths that name the same
  file (its links), the working directory and the lines written to standard error.
  Truncating and writing a file is seen under all its names.  The tree holds directories
  and regular files only: there are no permissions, no special files, no links to
  directories and no symbolic link that leads to no file; `os.Create` fails when the
  directory of the file is missing or is a file, or when the path names a directory;
  `os.MkdirAll` fails at a component that is a regular file; a write fails when the path
  no longer names a regular file, and closing a file does not fail.
* A call either returns (`Outcome.running`) or ends the process (`Outcome.exited`, for
  `log.Fatalln`, `log.Fatalf` and a panic).

Definitions come first, then the lemmas, then the theorems on the claims C1 to C10.
-/

namespace Atlas

/-! ## The fragment of `text/template` used by `createFileFromTemplate` -/

/-- Nodes of a parsed template: literal text, or a field of the data (`.Name`). -/
inductive TNode where
  | text (s : List Char)
  | field (name : List Char)
deriving DecidableEq, Repr

/-- Scan up to the first doubled delimiter character `d` (`leftDelim` is two `d = '\x7b'`,
`rightDelim` two `d = '\x7d'`): the text before it and, when it occurs, what follows it. -/
def splitAtDelim (d : Char) : List Char → List Char × Option (List Char)
  | [] => ([], none)
  | c :: cs =>
    if c = d ∧ cs.head? = some d then ([], some cs.tail)
    else (c :: (splitAtDelim d cs).1, (splitAtDelim d cs).2)

/-- Spaces skipped inside an action. -/
def isSpace (c : Char) : Bool := c = ' ' ∨ c = '\t'

/-- ASCII letters and the underscore. -/
def isLetter (c : Char) : Bool :=
  ('a'.toNat ≤ c.toNat ∧ c.toNat ≤ 'z'.toNat) ∨ ('A'.toNat ≤ c.toNat ∧ c.toNat ≤ 'Z'.toNat) ∨ c = '_'

/-- ASCII letters, digits and the underscore. -/
def isAlphaNumeric (c : Char) : Bool :=
  isLetter c ∨ ('0'.toNat ≤ c.toNat ∧ c.toNat ≤ '9'.toNat)

/-- Remove the spaces at both ends. -/
def trimSpace (s : List Char) : List Char :=
  ((s.dropWhile isSpace).reverse.dropWhile isSpace).reverse

/-- The inside of an action, when it is a single field reference `.Name`; every other
action (pipelines, trim markers, comments, control structures) is outside the fragment. -/
def parseField (action : List Char) : Option (List Char) :=
  match trimSpace action with
  | '.' :: c :: cs => if isLetter c ∧ cs.all isAlphaNumeric then some (c :: cs) else none
  | _ => none

/-- A text node, dropped when empty as the lexer emits no empty text item. -/
def textNode (t : List Char) : List TNode := if t = [] then [] else [TNode.text t]

/-- Parsing loop: text up to the left delimiter, then the action up to the right
delimiter, repeatedly.  `none` is a parse error (an unclosed action) or an action
outside the fragment. -/
def parseAux : Nat → List Char → Option (List TNode)
  | 0, _ => none
  | fuel + 1, input =>
    match splitAtDelim '\x7b' input with
    | (t, none) => some (textNode t)
    | (t, some rest) =>
      match splitAtDelim '\x7d' rest with
      | (_, none) => none
      | (a, some rest2) =>
        match parseField a, parseAux fuel rest2 with
        | some name, some nodes => some (textNode t ++ TNode.field name :: nodes)
        | _, _ => none

/-- Go `template.New("").Parse(str)`.  Every round of the loop consumes the delimiters,
so the length of the input is enough fuel (`parseAux_fuel`). -/
def templateParse (str : String) : Option (List TNode) :=
  parseAux (str.data.length + 1) str.data

/-- The data handed to `Execute`: a `map[string]interface{}` with string values. -/
abbrev Data := List (String × String)

/-- Evaluate `.name` on the map: the value when the key is present, and the text
`<no value>` when it is missing. -/
def evalField (data : Data) (name : List Char) : List Char :=
  match data.lookup (String.mk name) with
  | some v => v.data
  | none => "<no value>".data

/-- What `Execute` writes for the nodes of a template, in order. -/
def execNodes (data : Data) : List TNode → List Char
  | [] => []
  | TNode.text s :: rest => s ++ execNodes data rest
  | TNode.field name :: rest => evalField data name ++ execNodes data rest

/-! ## The template bodies: the raw string literals of the creators -/

/-- Lines of the raw string literal `str` in `createEnvGoFile`. -/
def envGoStrLines : List String :=
  ["package utils\n",
   "\n",
   "\tconst LOCAL = \"local\"\n",
   "\tconst DEV = \"dev\"\n",
   "\tconst TESTING = \"testing\"\n",
   "\tconst PROD = \"prod\"\n"]

/-- The template body `str` of `createEnvGoFile`. -/
def envGoStr : String := envGoStrLines.foldr (fun l s => l ++ s) ""

/-- Lines of the raw string literal `str` in `createLoggyGoFile`. -/
def loggyGoStrLines : List String :=
  ["package loggy\n",
   "\n",
   "\timport (\n",
   "\t\t\"go.uber.org/zap\"\n",
   "\t)\n",
   "\t\n",
   "\ttype Loggy interface \x7b\n",
   "\t\tInfo(interface\x7b\x7d)\n",
   "\t\tError(interface\x7b\x7d)\n",
   "\t\tWarn(interface\x7b\x7d)\n",
   "\t\tDebug(interface\x7b\x7d)\n",
   "\t\x7d\n",
   "\t\n",
   "\tfunc NewLoggy(name string) Loggy \x7b\n",
   "\t\tlogger, err := zap.NewProduction()\n",
   "\t\tif err != nil \x7b\n",
   "\t\t\tprintln(\"unable to init logger\")\n",
   "\t\t\x7d\n",
   "\t\tdefer logger.Sync()\n",
   "\t\tlogger.Named(name)\n",
   "\t\treturn loggy\x7b\n",
   "\t\t\tlogger: logger,\n",
   "\t\t\x7d\n",
   "\t\x7d\n",
   "\t\n",
   "\ttype loggy struct \x7b\n",
   "\t\tlogger *zap.Logger\n",
   "\t\x7d\n",
   "\t\n",
   "\tfunc (l loggy) Info(v interface\x7b\x7d) \x7b\n",
   "\t\tl.logger.Sugar().Info(v)\n",
   "\t\x7d\n",
   "\t\n",
   "\tfunc (l loggy) Debug(v interface\x7b\x7d) \x7b\n",
   "\t\tl.logger.Sugar().Debug(v)\n",
   "\t\x7d\n",
   "\t\n",
   "\tfunc (l loggy) Warn(v interface\x7b\x7d) \x7b\n",
   "\t\tl.logger.Sugar().Warn(v)\n",
   "\t\x7d\n",
   "\t\n",
   "\tfunc (l loggy) Error(v interface\x7b\x7d) \x7b\n",
   "\t\tl.logger.Sugar().Error(v)\n",
   "\t\x7d\n"]

/-- The template body `str` of `createLoggyGoFile`. -/
def loggyGoStr : String := loggyGoStrLines.foldr (fun l s => l ++ s) ""

/-- Lines of the raw string literal `str` in `createAPIGoFile`. -/
def apiGoStrLines : List String :=
  ["package api\n",
   "\n",
   "const StatusInternalServerError = \"Something went wrong, please try after sometimes\"\n",
   "const StatusBadRequest = \"Bad request\"\n"]

/-- The template body `str` of `createAPIGoFile`. -/
def apiGoStr : String := apiGoStrLines.foldr (fun l s => l ++ s) ""

/-- Lines of the raw string literal `str` in `createModelGoFile`. -/
def modelGoStrLines : List String :=
  ["package models\n",
   "\n",
   "type SuccessResponse struct \x7b\n",
   "\tSuccess bool       \tjson:\"success\"\n",
   "\tData    interface\x7b\x7d json:\"data\"\n",
   "\x7d\n",
   "\n",
   "type FailureResponse struct \x7b\n",
   "\tSuccess bool        json:\"success\"\n",
   "\tMessage string      json:\"message\"\n",
   "\tError   interface\x7b\x7d json:\"error\"\n",
   "\x7d\n"]

/-- The template body `str` of `createModelGoFile`. -/
def modelGoStr : String := modelGoStrLines.foldr (fun l s => l ++ s) ""

/-- Lines of the raw string literal `str` in `createRepositoryGoFile`. -/
def repositoryGoStrLines : List String :=
  ["package repository\n",
   "\t\n",
   "\timport (\n",
   "\t\t\"context\"\n",
   "\t\tmodels \"\x7b\x7b .ProjectName \x7d\x7d/model\"\n",
   "\t\t\"\x7b\x7b .ProjectName \x7d\x7d/utils/loggy\"\n",
   "\t\t\"time\"\n",
   "\t\n",
   "\t\t\"go.mongodb.org/mongo-driver/bson\"\n",
   "\t\n",
   "\t\t\"go.mongodb.org/mongo-driver/mongo\"\n",
   "\t\n",
   "\t\t\"go.mongodb.org/mongo-driver/bson/primitive\"\n",
   "\t)\n",
   "\t\n",
   "\ttype Repository interface \x7b\x7d\n",
   "\n",
   "\tfunc NewRepository(collections database.Collections, loggy loggy.Loggy) Repository \x7b\n",
   "\treturn repository\x7b\n",
   "\t\tcollections: collections,\n",
   "\t\tloggy:       loggy,\n",
   "\t\x7d\n",
   "\x7d\n"]

/-- The template body `str` of `createRepositoryGoFile`. -/
def repositoryGoStr : String := repositoryGoStrLines.foldr (fun l s => l ++ s) ""

/-- Lines of the raw string literal `str` in `createHandlersGoFile`. -/
def handlersGoStrLines : List String :=
  ["package handler\n",
   "\n",
   "\timport (\n",
   "\t\tmodels \"\x7b\x7b .ProjectName \x7d\x7d/model\"\n",
   "\t\t\"\x7b\x7b .ProjectName \x7d\x7d/repository\"\n",
   "\t\t\"\x7b\x7b .ProjectName \x7d\x7d/utils/api\"\n",
   "\t\t\"\x7b\x7b .ProjectName \x7d\x7d/utils/loggy\"\n",
   "\t\n",
   "\t\t\"go.mongodb.org/mongo-driver/bson/primitive\"\n",
   "\t\n",
   "\t\t\"github.com/gofiber/fiber/v2\"\n",
   "\t)\n",
   "\t\n",
   "\t// Handler\n",
   "\ttype Handler interface \x7b\x7d\n",
   "\t\n",
   "\tfunc NewHandler(repository repository.Repository, loggy loggy.Loggy) Handler \x7b\n",
   "\t\treturn handler\x7b\n",
   "\t\t\trepository: repository,\n",
   "\t\t\tloggy:      loggy,\n",
   "\t\t\x7d\n",
   "\t\x7d\n"]

/-- The template body `str` of `createHandlersGoFile`. -/
def handlersGoStr : String := handlersGoStrLines.foldr (fun l s => l ++ s) ""

/-- Lines of the raw string literal `str` in `createRouteGoFile`. -/
def routeGoStrLines : List String :=
  ["package router\n",
   "\n",
   "\timport (\n",
   "\t\t\"\x7b\x7b .ProjectName \x7d\x7d/handler\"\n",
   "\t\n",
   "\t\t\"github.com/gofiber/fiber/v2\"\n",
   "\t)\n",
   "\t\n",
   "\tfunc SetupRoutes(app *fiber.App, h handler.Handler) \x7b\n",
   "\t\n",
   "\t\tapp.Get(\"/health-check\", func(c *fiber.Ctx) error \x7b\n",
   "\t\t\treturn c.Status(200).JSON(fiber.Map\x7b\"success\": true, \"message\": \"welcome\"\x7d)\n",
   "\t\t\x7d)\n",
   "\t\n",
   "\t\tv1 := app.Group(\"/api/v1\")\n",
   "\t\x7d\n"]

/-- The template body `str` of `createRouteGoFile`. -/
def routeGoStr : String := routeGoStrLines.foldr (fun l s => l ++ s) ""

/-- Lines of the raw string literal `str` in `createDatabaseGoFile`. -/
def databaseGoStrLines : List String :=
  ["package database\n",
   "\n",
   "\timport (\n",
   "\t\t\"context\"\n",
   "\t\t\"\x7b\x7b .ProjectName \x7d\x7d/utils/loggy\"\n",
   "\t\t\"os\"\n",
   "\t\t\"time\"\n",
   "\t\n",
   "\t\t\"go.mongodb.org/mongo-driver/mongo\"\n",
   "\t\t\"go.mongodb.org/mongo-driver/mongo/options\"\n",
   "\t\t\"go.mongodb.org/mongo-driver/mongo/readpref\"\n",
   "\t)\n",
   "\n",
   "\ttype Collections struct \x7b\x7d\n",
   "\t\n",
   "\tfunc Connect(loggy loggy.Loggy) (Collections, error) \x7b\n",
   "\t\turi := os.Getenv(\"MONGO_URI\")\n",
   "\t\tdbCtx, cancel := context.WithTimeout(context.Background(), 10*time.Second)\n",
   "\t\tdefer cancel()\n",
   "\t\topt := options.Client().ApplyURI(uri)\n",
   "\t\tclient, err := mongo.Connect(dbCtx, opt)\n",
   "\t\tloggy.Error(err)\n",
   "\t\tif err != nil \x7b\n",
   "\t\t\treturn Collections\x7b\x7d, err\n",
   "\t\t\x7d else \x7b\n",
   "\t\t\tif err := client.Ping(dbCtx, readpref.Primary()); err != nil \x7b\n",
   "\t\t\t\tloggy.Error(err)\n",
   "\t\t\t\treturn Collections\x7b\x7d, err\n",
   "\t\t\t\x7d\n",
   "\t\t\t// Replace with your db name\n",
   "\t\t\tdb := client.Database(\"test\")\n",
   "\t\t\t\n",
   "\t\t\tsampleCollection := db.Collection(\"sample\")\n",
   "\n",
   "\t\t\treturn Collections\x7b\x7d, nil\n",
   "\t\t\x7d\n",
   "\t\x7d\n"]

/-- The template body `str` of `createDatabaseGoFile`. -/
def databaseGoStr : String := databaseGoStrLines.foldr (fun l s => l ++ s) ""

/-- Lines of the raw string literal `str` in `createServerGoFile`. -/
def serverGoStrLines : List String :=
  ["package server\n",
   "\n",
   "\timport (\n",
   "\t\t\"\x7b\x7b .ProjectName \x7d\x7d/database\"\n",
   "\t\t\"\x7b\x7b .ProjectName \x7d\x7d/handler\"\n",
   "\t\t\"\x7b\x7b .ProjectName \x7d\x7d/repository\"\n",
   "\t\t\"\x7b\x7b .ProjectName \x7d\x7d/router\"\n",
   "\t\t\"\x7b\x7b .ProjectName \x7d\x7d/utils/loggy\"\n",
   "\t\t\"log\"\n",
   "\t\n",
   "\t\t\"github.com/gofiber/fiber/v2\"\n",
   "\t\t\"github.com/gofiber/fiber/v2/middleware/recover\"\n",
   "\t)\n",
   "\t\n",
   "\tfunc Setup() *fiber.App \x7b\n",
   "\t\tl := loggy.NewLoggy(\"\x7b\x7b .ProjectName \x7d\x7d\")\n",
   "\t\n",
   "\t\tcollections, err := database.Connect(l)\n",
   "\t\n",
   "\t\tif err != nil \x7b\n",
   "\t\t\tlog.Fatalln(\"Unable connect to database: \" + err.Error())\n",
   "\t\t\x7d\n",
   "\t\n",
   "\t\tapp := fiber.New()\n",
   "\t\n",
   "\t\tapp.Use(recover.New())\n",
   "\t\n",
   "\t\tr := repository.NewRepository(collections, l)\n",
   "\t\n",
   "\t\th := handler.NewHandler(r, l)\n",
   "\t\n",
   "\t\trouter.SetupRoutes(app, h)\n",
   "\t\n",
   "\t\treturn app\n",
   "\t\x7d\n",
   "\t"]

/-- The template body `str` of `createServerGoFile`. -/
def serverGoStr : String := serverGoStrLines.foldr (fun l s => l ++ s) ""

/-- Lines of the raw string literal `str` in `createGOMODFile`. -/
def gomodStrLines : List String :=
  ["module \x7b\x7b .ProjectName \x7d\x7d\n",
   "\n",
   "\tgo 1.16\n",
   "\t\n",
   "\trequire (\n",
   "\t\tgithub.com/andybalholm/brotli v1.0.3 // indirect\n",
   "\t\tgithub.com/fatih/structs v1.1.0 // indirect\n",
   "\t\tgithub.com/gavv/httpexpect/v2 v2.3.1 // indirect\n",
   "\t\tgithub.com/gofiber/fiber/v2 v2.15.0 // indirect\n",
   "\t\tgithub.com/golang/snappy v0.0.4 // indirect\n",
   "\t\tgithub.com/google/go-querystring v1.1.0 // indirect\n",
   "\t\tgithub.com/imkira/go-interpol v1.1.0 // indirect\n",
   "\t\tgithub.com/klauspost/compress v1.13.1 // indirect\n",
   "\t\tgithub.com/sergi/go-diff v1.2.0 // indirect\n",
   "\t\tgithub.com/stretchr/objx v0.3.0 // indirect\n",
   "\t\tgithub.com/stretchr/testify v1.7.0 // indirect\n",
   "\t\tgithub.com/valyala/fasthttp v1.28.0 // indirect\n",
   "\t\tgithub.com/xeipuuv/gojsonpointer v0.0.0-20190905194746-02993c407bfb // indirect\n",
   "\t\tgithub.com/xeipuuv/gojsonschema v1.2.0 // indirect\n",
   "\t\tgithub.com/youmark/pkcs8 v0.0.0-20201027041543-1326539a0a0a // indirect\n",
   "\t\tgo.mongodb.org/mongo-driver v1.6.0 // indirect\n",
   "\t\tgo.uber.org/atomic v1.9.0 // indirect\n",
   "\t\tgo.uber.org/multierr v1.7.0 // indirect\n",
   "\t\tgo.uber.org/zap v1.18.1 // indirect\n",
   "\t\tgolang.org/x/crypto v0.0.0-20210711020723-a769d52b0f97 // indirect\n",
   "\t\tgolang.org/x/net v0.0.0-20210716203947-853a461950ff // indirect\n",
   "\t\tgolang.org/x/sync v0.0.0-20210220032951-036812b2e83c // indirect\n",
   "\t\tgolang.org/x/sys v0.0.0-20210630005230-0f9fa26af87c // indirect\n",
   "\t\tgopkg.in/yaml.v3 v3.0.0-20210107192922-496545a6307b // indirect\n",
   "\t)\n"]

/-- The template body `str` of `createGOMODFile`. -/
def gomodStr : String := gomodStrLines.foldr (fun l s => l ++ s) ""

/-- Lines of the raw string literal `str` in `createMainGoFile`. -/
def mainGoStrLines : List String :=
  ["package main\n",
   "\n",
   "\timport (\n",
   "\t\t\"log\"\n",
   "\t\t\"os\"\n",
   "\t\t\"vehicle_management_service/server\"\n",
   "\t\t\"vehicle_management_service/utils\"\n",
   "\t)\n",
   "\t\n",
   "\tfunc main() \x7b\n",
   "\t\tport := os.Getenv(\"PORT\")\n",
   "\t\tenv := os.Getenv(\"ENV\")\n",
   "\t\tapp := server.Setup()\n",
   "\t\tif env == utils.LOCAL \x7b\n",
   "\t\t\tlog.Fatal(app.Listen(\"localhost:\" + port))\n",
   "\t\t\x7d else \x7b\n",
   "\t\t\tlog.Fatal(app.Listen(\":\" + port))\n",
   "\t\t\x7d\n",
   "\t\x7d\n",
   "\n",
   "\t"]

/-- The template body `str` of `createMainGoFile`. -/
def mainGoStr : String := mainGoStrLines.foldr (fun l s => l ++ s) ""

/-! ## The operating system and `createFileFromTemplate` -/

/-- Go `Template.Execute` with the data `data`: the concatenated output of the nodes. -/
def templateExecute (t : List TNode) (data : Data) : String := String.mk (execNodes data t)

/-- An absolute path: the names from the root down. -/
abbrev Path := List String

/-- What a path names: a directory or a regular file with its content. -/
inductive Node where
  | dir
  | file (content : String)
deriving DecidableEq, Repr

/-- The directory tree; the root `[]` is a directory. -/
abbrev FS := Path → Option Node

/-- The state the program acts on.  A regular file may have several names: `links p` are
the other paths that name the file at `p` (hard links, and symbolic links that lead to
it); it is read only where `p` is a regular file. -/
structure World where
  fs : FS
  cwd : Path
  stderr : List String
  links : Path → List Path

/-- Whether a node is a regular file. -/
def isFile : Option Node → Bool
  | some (Node.file _) => true
  | _ => false

/-- How a call ends: it returns (`running`), or the process ends in it (`exited`:
`log.Fatalln`, `log.Fatalf` or a panic). -/
inductive Outcome where
  | running (w : World)
  | exited (w : World)

/-- The world an outcome leaves. -/
def Outcome.world : Outcome → World
  | Outcome.running w => w
  | Outcome.exited w => w

/-- Whether the call returned to its caller. -/
def Outcome.isRunning : Outcome → Bool
  | Outcome.running _ => true
  | Outcome.exited _ => false

/-- Sequencing of statements: the next one runs only when the process is still alive. -/
def Outcome.andThen (o : Outcome) (f : World → Outcome) : Outcome :=
  match o with
  | Outcome.running w => f w
  | Outcome.exited w => Outcome.exited w

/-- Split a path string at the slashes. -/
def splitSlash : List Char → List (List Char)
  | [] => [[]]
  | c :: cs =>
    if c = '/' then [] :: splitSlash cs
    else match splitSlash cs with
      | [] => [[c]]
      | h :: t => (c :: h) :: t

/-- The components of a path string. -/
def components (path : String) : List String := (splitSlash path.data).map String.mk

/-- Where resolution of a path string starts: the root for an absolute path, the
working directory otherwise. -/
def startOf (w : World) (path : String) : Path :=
  if path.data.head? = some '/' then [] else w.cwd

/-- One component further from the directory `cur`. -/
def stepInto (cur : Path) (c : String) : Path :=
  if c = "" ∨ c = "." then cur else if c = ".." then cur.dropLast else cur ++ [c]

/-- Follow components through existing directories; the path reached is a directory. -/
def walkDirs (fs : FS) : Path → List String → Option Path
  | cur, [] => if fs cur = some Node.dir then some cur else none
  | cur, c :: cs => if fs cur = some Node.dir then walkDirs fs (stepInto cur c) cs else none

/-- Follow components, creating the directories that are missing; fails at a
component that is a regular file.  The directories made before a failure stay. -/
def mkdirWalk (fs : FS) : Path → List String → FS × Bool
  | cur, [] => (fs, fs cur = some Node.dir)
  | cur, c :: cs =>
    if fs cur = some Node.dir then
      match fs (stepInto cur c) with
      | some Node.dir => mkdirWalk fs (stepInto cur c) cs
      | some (Node.file _) => (fs, false)
      | none => mkdirWalk (Function.update fs (stepInto cur c) (some Node.dir)) (stepInto cur c) cs
    else (fs, false)

/-- Go `os.MkdirAll(path, os.ModePerm)`: the world after the call and whether it
returned a nil error. -/
def osMkdirAll (path : String) (w : World) : World × Bool :=
  if path = "" then (w, false)
  else ({ w with fs := (mkdirWalk w.fs (startOf w path) (components path)).1 },
        (mkdirWalk w.fs (startOf w path) (components path)).2)

/-- Go `os.Chdir(path)`: the world after a successful call, `none` for an error. -/
def osChdir (path : String) (w : World) : Option World :=
  if path = "" then none
  else (walkDirs w.fs (startOf w path) (components path)).map (fun p => { w with cwd := p })

/-- The file a path string names for `os.Create`: its directory must exist and the last
component must be a name that is not a directory. -/
def createTarget (path : String) (w : World) : Option Path :=
  match walkDirs w.fs (startOf w path) (components path).dropLast, (components path).getLast? with
  | some parent, some name =>
    if name = "" ∨ name = "." ∨ name = ".." then none
    else if w.fs (parent ++ [name]) = some Node.dir then none
    else some (parent ++ [name])
  | _, _ => none

/-- Whether the path `p` is a name of the file opened at `f`: `f` itself, or one of its
links that is a regular file. -/
def namesOf (w : World) (f p : Path) : Bool :=
  decide (p = f) || (decide (p ∈ w.links f) && isFile (w.fs p))

/-- The file at `f` given the content `s`: the content is seen under every name of the
file. -/
def setContent (f : Path) (s : String) (w : World) : World :=
  { w with fs := fun p => if namesOf w f p = true then some (Node.file s) else w.fs p }

/-- Go `os.Create(path)`: an existing file is truncated, under all its names; a file that
does not exist is created, with this one name.  Returns the open file (the path it names)
and the world, `none` for an error. -/
def osCreate (path : String) (w : World) : Option (Path × World) :=
  (createTarget path w).map
    (fun f => (f,
      if isFile (w.fs f) = true then setContent f "" w
      else { w with fs := Function.update w.fs f (some (Node.file "")),
                    links := Function.update w.links f [] }))

/-- A write to the open file `f` appends to what the file holds, under all its names;
`none` is an error (the path no longer names a regular file). -/
def fileWrite (f : Path) (s : String) (w : World) : Option World :=
  match w.fs f with
  | some (Node.file c) => some (setContent f (c ++ s) w)
  | _ => none

/-- Go `f.Close()`: closing a file changes nothing in the tree and does not fail. -/
def fileClose (_f : Path) (w : World) : Option World := some w

/-- A line on standard error (`println`, `log.Println`). -/
def printErr (line : String) (w : World) : World := { w with stderr := w.stderr ++ [line] }

/-- Go `log.Fatalln` / `log.Fatalf`: the line is printed and the process exits. -/
def logFatal (line : String) (w : World) : Outcome := Outcome.exited (printErr line w)

/-- The `Validate` function of `projectNamePrompt`: `none` is the nil error. -/
def validate (s : String) : Option String :=
  if s ≠ "" ∧ s.utf8ByteSize < 2 then some "Project must be greater than 2 characters " else none

/-- Go `createFileFromTemplate(path, str, projectName)`: an error of `os.Create` is logged
with `log.Println` and the function returns; `template.Must` panics on a body that does
not parse; the errors of `Execute` and `Close` are fatal.  The text of the `os.Create`
error is not modelled: the logged line names the path. -/
def createFileFromTemplate (path str projectName : String) (w : World) : Outcome :=
  match osCreate path w with
  | none => Outcome.running (printErr ("create file: " ++ path) w)
  | some (f, w1) =>
    match templateParse str with
    | none => Outcome.exited (printErr "panic: template" w1)
    | some t =>
      match fileWrite f (templateExecute t [("ProjectName", projectName)]) w1 with
      | none => logFatal ("\n " ++ path ++ " template generation filed") w1
      | some w2 =>
        match fileClose f w2 with
        | none => logFatal "unable to close file" w2
        | some w3 => Outcome.running w3

/-- Go `createFlutterProject(projectName)`. -/
def createFlutterProject (projectName : String) (w : World) : Outcome :=
  Outcome.running (printErr projectName w)

/-- The shape shared by the file creators: an optional `os.MkdirAll` whose failure is
fatal, then `createFileFromTemplate`. -/
def createWithDir (dir fatalMsg path str projectName : String) (w : World) : Outcome :=
  match osMkdirAll dir w with
  | (w1, false) => logFatal fatalMsg w1
  | (w1, true) => createFileFromTemplate path str projectName w1

/-! ## The creators and `createGolangProject` -/

/-- Go `createEnvGoFile(projectName)`. -/
def createEnvGoFile (projectName : String) (w : World) : Outcome :=
  createFileFromTemplate "./utils/environment.go" envGoStr projectName w

/-- Go `createLoggyGoFile(projectName)`. -/
def createLoggyGoFile (projectName : String) (w : World) : Outcome :=
  createWithDir "utils/loggy" "unable to create utils/loggy directory"
    "./utils/loggy/loggy.go" loggyGoStr projectName w

/-- Go `createAPIGoFile(projectName)`. -/
def createAPIGoFile (projectName : String) (w : World) : Outcome :=
  createWithDir "utils/api" "unable to create utils/api directory"
    "./utils/api/error_message.go" apiGoStr projectName w

/-- Go `createModelGoFile(projectName)`. -/
def createModelGoFile (projectName : String) (w : World) : Outcome :=
  createWithDir "model" "unable to create model directory"
    "./model/response.go" modelGoStr projectName w

/-- Go `createRepositoryGoFile(projectName)`. -/
def createRepositoryGoFile (projectName : String) (w : World) : Outcome :=
  createWithDir "repository" "unable to create repository directory"
    "./repository/repository.go" repositoryGoStr projectName w

/-- Go `createHandlersGoFile(projectName)`. -/
def createHandlersGoFile (projectName : String) (w : World) : Outcome :=
  createWithDir "handler" "unable to create handler directory"
    "./handler/handler.go" handlersGoStr projectName w

/-- Go `createRouteGoFile(projectName)`. -/
def createRouteGoFile (projectName : String) (w : World) : Outcome :=
  createWithDir "router" "unable to create router directory"
    "./router/router.go" routeGoStr projectName w

/-- Go `createDatabaseGoFile(projectName)`. -/
def createDatabaseGoFile (projectName : String) (w : World) : Outcome :=
  createWithDir "database" "unable to create database directory"
    "./database/database.go" databaseGoStr projectName w

/-- Go `createServerGoFile(projectName)`. -/
def createServerGoFile (projectName : String) (w : World) : Outcome :=
  createWithDir "server" "Unable to create server directory"
    "./server/server.go" serverGoStr projectName w

/-- Go `createGOMODFile(projectName)`. -/
def createGOMODFile (projectName : String) (w : World) : Outcome :=
  createFileFromTemplate "./go.mod" gomodStr projectName w

/-- Go `createMainGoFile(projectName)`. -/
def createMainGoFile (projectName : String) (w : World) : Outcome :=
  createFileFromTemplate "./main.go" mainGoStr projectName w

/-- The eleven creator calls of `createGolangProject`, in order. -/
def golangSequence (projectName : String) (w : World) : Outcome :=
  (((((((((((createGOMODFile projectName w).andThen
    (createMainGoFile projectName)).andThen
    (createServerGoFile projectName)).andThen
    (createDatabaseGoFile projectName)).andThen
    (createRouteGoFile projectName)).andThen
    (createHandlersGoFile projectName)).andThen
    (createRepositoryGoFile projectName)).andThen
    (createModelGoFile projectName)).andThen
    (createAPIGoFile projectName)).andThen
    (createLoggyGoFile projectName)).andThen
    (createEnvGoFile projectName))

/-- Go `createGolangProject(projectName)`. -/
def createGolangProject (projectName : String) (w : World) : Outcome :=
  match osMkdirAll projectName w with
  | (w1, false) => logFatal "Unable to create directory" w1
  | (w1, true) =>
    match osChdir projectName w1 with
    | none => logFatal "Unable to change directory" w1
    | some w2 => golangSequence projectName w2

/-- The part of `initCmd.Run` between the prompts: the announcement, the `switch` on the
selected language and the closing message. -/
def initRun (selected projectName : String) (w : World) : Outcome :=
  ((if selected = "Golang" then createGolangProject projectName
    else if selected = "Dart(Flutter)" then createFlutterProject projectName
    else Outcome.running)
    (printErr ("🗂️ Initializing " ++ selected ++ " project") w)).andThen
    (fun w1 => Outcome.running (printErr ("✔ " ++ projectName ++ " initialized successfully") w1))

/-! ## Words of the specification, and checks evaluated on the bodies -/

/-- The placeholder token of the templates. -/
def placeholder : List Char := "\x7b\x7b .ProjectName \x7d\x7d".data

/-- Replacement of the occurrences of `old` by `new`, left to right and without
rescanning what was inserted; `skip` counts the characters of a matched occurrence that
are still to be passed over. -/
def replaceAllAux (old new : List Char) : Nat → List Char → List Char
  | _, [] => []
  | skip + 1, _ :: cs => replaceAllAux old new skip cs
  | 0, c :: cs =>
    if old.isPrefixOf (c :: cs) then new ++ replaceAllAux old new (old.length - 1) cs
    else c :: replaceAllAux old new 0 cs

/-- The body with each occurrence of the placeholder token replaced by the project name,
all other text unchanged. -/
def substitute (str projectName : String) : String :=
  String.mk (replaceAllAux placeholder projectName.data 0 str.data)

/-- Whether the doubled character `d d` occurs in the text. -/
def hasDouble (d : Char) : List Char → Bool
  | [] => false
  | c :: cs => (c = d ∧ cs.head? = some d) || hasDouble d cs

/-- The template text the nodes stand for when every action is written as the placeholder. -/
def unparse : List TNode → List Char
  | [] => []
  | TNode.text s :: rest => s ++ unparse rest
  | TNode.field _ :: rest => placeholder ++ unparse rest

/-- No occurrence of `old` starts inside `t` when `t` is followed by `after`. -/
def noMatchIn (old : List Char) : List Char → List Char → Bool
  | [], _ => true
  | c :: t, after => !(old.isPrefixOf (c :: (t ++ after))) && noMatchIn old t after

/-- Every field is `.ProjectName` and the placeholder occurs in the unparsed text only
where a field stands. -/
def canonical : List TNode → Bool
  | [] => true
  | TNode.text s :: rest => noMatchIn placeholder s (unparse rest) && canonical rest
  | TNode.field name :: rest => decide (name = "ProjectName".data) && canonical rest

/-- The body parses, into nodes that unparse to it and are canonical. -/
def checkBody (str : String) : Bool :=
  match templateParse str with
  | some ns => decide (unparse ns = str.data) && canonical ns
  | none => false

/-- A text that is not empty, has no doubled `d` and neither starts nor ends with `d`. -/
def safeText (d : Char) (s : List Char) : Bool :=
  !hasDouble d s && decide (s.head? ≠ some d) && decide (s.getLast? ≠ some d) && decide (s ≠ [])

/-- Texts are safe and every field is followed by a text. -/
def safeNodes (d : Char) : List TNode → Bool
  | [] => true
  | TNode.text s :: rest => safeText d s && safeNodes d rest
  | TNode.field _ :: TNode.text s :: rest => safeText d s && safeNodes d rest
  | TNode.field _ :: _ => false

/-- Whether a node is the field `.ProjectName`. -/
def isNameField : TNode → Bool
  | TNode.field name => decide (name = "ProjectName".data)
  | TNode.text _ => false

/-- Whether a node is a text that is not empty. -/
def isSolidText : TNode → Bool
  | TNode.text s => decide (s ≠ [])
  | TNode.field _ => false

/-- The body parses into nodes that reference the project name, with safe texts for both
delimiter characters. -/
def checkReferencing (str : String) : Bool :=
  match templateParse str with
  | some ns => ns.any isNameField && safeNodes '\x7b' ns && safeNodes '\x7d' ns
  | none => false

/-- The body parses into nodes with a text that is not empty. -/
def checkSolid (str : String) : Bool :=
  match templateParse str with
  | some ns => ns.any isSolidText
  | none => false

/-- The template bodies of the eleven creators, in the order of `createGolangProject`. -/
def golangBodies : List String :=
  [gomodStr, mainGoStr, serverGoStr, databaseGoStr, routeGoStr, handlersGoStr,
   repositoryGoStr, modelGoStr, apiGoStr, loggyGoStr, envGoStr]

/-- The bodies that reference the placeholder. -/
def referencingBodies : List String :=
  [gomodStr, serverGoStr, databaseGoStr, routeGoStr, handlersGoStr, repositoryGoStr]

/-! ## Notions used in the proofs -/

/-- A component that names an entry: not empty, not `.` and not `..`. -/
def plain (c : String) : Bool := decide (c ≠ "" ∧ c ≠ "." ∧ c ≠ "..")

/-- The second tree has what the first has, and directories where the first has nothing. -/
def DirExt (fs fs' : FS) : Prop :=
  ∀ p, fs' p = fs p ∨ (fs p = none ∧ fs' p = some Node.dir)

/-- What a run below the directory `r` may change: directories appear at the places `D`
where nothing was, regular files appear or are rewritten at the places `E` where no
directory is, and a regular file stays a regular file (its content may change through
one of its names). -/
def Frame (r : Path) (D : List (List String)) (E : List (List String × String))
    (fs fs' : FS) : Prop :=
  ∀ p, fs' p = fs p ∨ (fs p = none ∧ fs' p = some Node.dir ∧ ∃ d ∈ D, p = r ++ d) ∨
    (fs p ≠ some Node.dir ∧ isFile (fs' p) = true ∧ ∃ e ∈ E, p = r ++ e.1) ∨
    (isFile (fs p) = true ∧ isFile (fs' p) = true)

/-- The string `dir` is a relative path made of the plain components `ds`. -/
def RelDir (dir : String) (ds : List String) : Bool :=
  decide (dir ≠ "" ∧ dir.data.head? ≠ some '/' ∧ components dir = ds) && ds.all plain

/-- The string `path` is `./` followed by the plain components `t`. -/
def RelFile (path : String) (t : List String) : Bool :=
  decide (path.data.head? ≠ some '/' ∧ components path = "." :: t ∧ t ≠ []) && t.all plain

/-- The world after the file at `f` was created or truncated and `s` written to it. -/
def written (f : Path) (s : String) (w : World) : World :=
  if isFile (w.fs f) = true then setContent f s w
  else { w with fs := Function.update w.fs f (some (Node.file s)),
                links := Function.update w.links f [] }

/-- What one creator call does, seen from the working directory: `ds` are the components of
the directory it makes, `t` those of the file it writes, `content` what it writes. -/
structure StepSpec (S : World → Outcome) (ds t : List String) (content : String) : Prop where
  cwd_eq : ∀ w, (S w).world.cwd = w.cwd
  stderr_ext : ∀ w, w.stderr <+: (S w).world.stderr
  frame : ∀ w, Frame w.cwd ds.inits [(t, content)] w.fs (S w).world.fs
  touched : ∀ w p, isFile (w.fs p) = true → (S w).world.fs p ≠ w.fs p →
    p = w.cwd ++ t ∨ (isFile (w.fs (w.cwd ++ t)) = true ∧ p ∈ w.links (w.cwd ++ t))
  links_old : ∀ w p, isFile (w.fs p) = true → (S w).world.links p = w.links p
  links_new : ∀ w p, isFile (w.fs p) = false → isFile ((S w).world.fs p) = true →
    (S w).world.links p = []
  success : ∀ w, (S w).isRunning = true → (S w).world.stderr = w.stderr →
    (S w).world.fs (w.cwd ++ t) = some (Node.file content) ∧
    (∀ d, d <+: ds → (S w).world.fs (w.cwd ++ d) = some Node.dir) ∧
    (∀ d, d <+: t.dropLast → (S w).world.fs (w.cwd ++ d) = some Node.dir) ∧
    (∀ q ∈ (S w).world.links (w.cwd ++ t), isFile ((S w).world.fs q) = true →
      (S w).world.fs q = some (Node.file content))
  noop : ∀ w, (∀ d, d <+: ds → w.fs (w.cwd ++ d) = some Node.dir) →
    (∀ d, d <+: t.dropLast → w.fs (w.cwd ++ d) = some Node.dir) →
    w.fs (w.cwd ++ t) = some (Node.file content) →
    (∀ q ∈ w.links (w.cwd ++ t), isFile (w.fs q) = true →
      w.fs q = some (Node.file content)) → S w = Outcome.running w
  feasible : ∀ w, w.fs w.cwd = some Node.dir →
    (∀ d, d <+: ds → ∀ c, w.fs (w.cwd ++ d) ≠ some (Node.file c)) →
    (∀ d, d <+: t.dropLast → d <+: ds ∨ w.fs (w.cwd ++ d) = some Node.dir) →
    w.fs (w.cwd ++ t) ≠ some Node.dir → ¬ t <+: ds →
    (S w).isRunning = true ∧ (S w).world.stderr = w.stderr

/-- Statements run one after the other. -/
def runSteps : List (World → Outcome) → World → Outcome
  | [], w => Outcome.running w
  | S :: rest, w => (S w).andThen (runSteps rest)

/-- A creator call with what it makes: the components of its directory, those of its file
and the content of the file. -/
structure Item where
  S : World → Outcome
  ds : List String
  t : List String
  content : String

/-- The places where the items make directories. -/
def itemDirs (l : List Item) : List (List String) := (l.map (fun i => i.ds.inits)).flatten

/-- The files the items write. -/
def itemFiles (l : List Item) : List (List String × String) := l.map (fun i => (i.t, i.content))

/-- The creator calls of the items, in order. -/
def itemSteps (l : List Item) : List (World → Outcome) := l.map (fun i => i.S)

/-- What the world holds below `r` once the items have run there with success: each file
with its content, under all its names, and the directories. -/
def Made (l : List Item) (r : Path) (w : World) : Prop :=
  ∀ i ∈ l, w.fs (r ++ i.t) = some (Node.file i.content) ∧
    (∀ d, d <+: i.ds → w.fs (r ++ d) = some Node.dir) ∧
    (∀ d, d <+: i.t.dropLast → w.fs (r ++ d) = some Node.dir) ∧
    (∀ q ∈ w.links (r ++ i.t), isFile (w.fs q) = true →
      w.fs q = some (Node.file i.content))

/-- No two of the paths `T` below `r` are names of the same file: where one is a regular
file, the other is not among its links, and they have no link in common. -/
def Apart (T : List (List String)) (r : Path) (w : World) : Prop :=
  ∀ t ∈ T, ∀ t' ∈ T, t ≠ t' → isFile (w.fs (r ++ t)) = true →
    r ++ t' ∉ w.links (r ++ t) ∧
    (isFile (w.fs (r ++ t')) = true → ∀ q ∈ w.links (r ++ t), q ∉ w.links (r ++ t'))

/-- Check on the table of a sequence (directory and file components of each call), for a
root where the directories `K` are known to exist: no directory made is a file of the
table, every file has its directory made by its own call, by an earlier one or is the
root, and no file of the table is a directory of the table. -/
def feasibleCheck (Dall Tall : List (List String)) :
    List (List String) → List (List String × List String) → Bool
  | _, [] => true
  | K, (ds, t) :: rest =>
    ds.inits.all (fun d => decide (d ∉ Tall) && decide (d ∈ Dall)) &&
    t.dropLast.inits.all (fun d => decide (d ∈ ds.inits ∨ d ∈ K ∨ d = [])) &&
    decide (t ∉ Dall) && decide (t ∈ Tall) &&
    feasibleCheck Dall Tall (K ++ ds.inits ++ t.dropLast.inits) rest

/-- The tree below `r`: the directories `K` exist, every directory is in `Dall` and every
file in `Tall`. -/
def Known (Dall Tall K : List (List String)) (r : Path) (fs : FS) : Prop :=
  fs r = some Node.dir ∧ (∀ d ∈ K, fs (r ++ d) = some Node.dir) ∧
    (∀ d, fs (r ++ d) = some Node.dir → d ∈ Dall) ∧
    (∀ d c, fs (r ++ d) = some (Node.file c) → d ∈ Tall)

/-! ## The table of `createGolangProject` -/

/-- The eleven creator calls of `createGolangProject`, in order. -/
def golangSteps (N : String) : List (World → Outcome) :=
  [createGOMODFile N, createMainGoFile N, createServerGoFile N, createDatabaseGoFile N,
   createRouteGoFile N, createHandlersGoFile N, createRepositoryGoFile N,
   createModelGoFile N, createAPIGoFile N, createLoggyGoFile N, createEnvGoFile N]

/-- The file each creator writes, relative to the project root, with its template body,
in the order of `createGolangProject`. -/
def golangFiles : List (List String × String) :=
  [(["go.mod"], gomodStr), (["main.go"], mainGoStr), (["server", "server.go"], serverGoStr),
   (["database", "database.go"], databaseGoStr), (["router", "router.go"], routeGoStr),
   (["handler", "handler.go"], handlersGoStr),
   (["repository", "repository.go"], repositoryGoStr), (["model", "response.go"], modelGoStr),
   (["utils", "api", "error_message.go"], apiGoStr),
   (["utils", "loggy", "loggy.go"], loggyGoStr), (["utils", "environment.go"], envGoStr)]

/-- The directory each creator makes, relative to the project root (none for `go.mod`,
`main.go` and `utils/environment.go`). -/
def golangDirs : List (List String) :=
  [[], [], ["server"], ["database"], ["router"], ["handler"], ["repository"], ["model"],
   ["utils", "api"], ["utils", "loggy"], []]

/-- The creator calls with what they make. -/
def golangItems (N : String) : List Item :=
  [⟨createGOMODFile N, [], ["go.mod"], substitute gomodStr N⟩,
   ⟨createMainGoFile N, [], ["main.go"], substitute mainGoStr N⟩,
   ⟨createServerGoFile N, ["server"], ["server", "server.go"], substitute serverGoStr N⟩,
   ⟨createDatabaseGoFile N, ["database"], ["database", "database.go"],
     substitute databaseGoStr N⟩,
   ⟨createRouteGoFile N, ["router"], ["router", "router.go"], substitute routeGoStr N⟩,
   ⟨createHandlersGoFile N, ["handler"], ["handler", "handler.go"], substitute handlersGoStr N⟩,
   ⟨createRepositoryGoFile N, ["repository"], ["repository", "repository.go"],
     substitute repositoryGoStr N⟩,
   ⟨createModelGoFile N, ["model"], ["model", "response.go"], substitute modelGoStr N⟩,
   ⟨createAPIGoFile N, ["utils", "api"], ["utils", "api", "error_message.go"],
     substitute apiGoStr N⟩,
   ⟨createLoggyGoFile N, ["utils", "loggy"], ["utils", "loggy", "loggy.go"],
     substitute loggyGoStr N⟩,
   ⟨createEnvGoFile N, [], ["utils", "environment.go"], substitute envGoStr N⟩]

/-- The places where a run of the eleven creators may make a directory: the root and the
prefixes of `golangDirs`. -/
def golangDall : List (List String) := (golangDirs.map List.inits).flatten

/-! ## Worlds used as concrete inputs -/

/-- A tree with the root directory only; the working directory is the root. -/
def emptyRoot : World :=
  ⟨fun p => if p = [] then some Node.dir else none, [], [], fun _ => []⟩

/-- The project directory `demo` exists and holds a directory named `go.mod`. -/
def blockedWorld : World :=
  ⟨fun p => if p = [] ∨ p = ["demo"] ∨ p = ["demo", "go.mod"] then some Node.dir else none,
    [], [], fun _ => []⟩

/-- The project directory `demo` exists; its `go.mod` holds other content and is one file
with `go.bak` of the root directory (a hard link). -/
def mirroredWorld : World :=
  ⟨fun p => if p = [] ∨ p = ["demo"] then some Node.dir
    else if p = ["demo", "go.mod"] ∨ p = ["go.bak"] then
      some (Node.file "module old\n\nrequire ()\n")
    else none, [], [],
    fun p => if p = ["demo", "go.mod"] then [["go.bak"]]
      else if p = ["go.bak"] then [["demo", "go.mod"]] else []⟩

/-- The working directory is the new, empty project directory `demo`. -/
def freshRoot : World :=
  ⟨fun p => if p = [] ∨ p = ["demo"] then some Node.dir else none, ["demo"], [],
    fun _ => []⟩

/-- The project directory `demo` exists and holds a regular file named `server`. -/
def fileInTheWayWorld : World :=
  ⟨fun p => if p = [] ∨ p = ["demo"] then some Node.dir
    else if p = ["demo", "server"] then some (Node.file "") else none, [], [],
    fun _ => []⟩

/-- The project directory `demo` exists and holds one regular file with the two names
`go.mod` and `main.go` (a hard link). -/
def linkedWorld : World :=
  ⟨fun p => if p = [] ∨ p = ["demo"] then some Node.dir
    else if p = ["demo", "go.mod"] ∨ p = ["demo", "main.go"] then some (Node.file "old\n")
    else none, [], [],
    fun p => if p = ["demo", "go.mod"] then [["demo", "main.go"]]
      else if p = ["demo", "main.go"] then [["demo", "go.mod"]] else []⟩

/-! ## Lemmas on the template fragment -/


theorem splitAtDelim_of_not_hasDouble (d : Char) :
    ∀ l : List Char, hasDouble d l = false → splitAtDelim d l = (l, none)
  | [], _ => rfl
  | c :: cs, h => by
    simp only [hasDouble, Bool.or_eq_false_iff, decide_eq_false_iff_not] at h
    have ih := splitAtDelim_of_not_hasDouble d cs h.2
    simp [splitAtDelim, h.1, ih]

theorem hasDouble_iff_occurs (d : Char) : ∀ l : List Char, hasDouble d l = true ↔ [d, d] <:+: l
  | [] => by simp [hasDouble]
  | c :: cs => by
    have ih := hasDouble_iff_occurs d cs
    simp only [hasDouble, Bool.or_eq_true, decide_eq_true_eq, ih]
    constructor
    · rintro (⟨rfl, h⟩ | h)
      · cases cs with
        | nil => simp at h
        | cons e es =>
          simp only [List.head?_cons, Option.some.injEq] at h
          subst h
          exact ⟨[], es, rfl⟩
      · exact h.trans (List.infix_cons (List.infix_refl cs))
    · rintro ⟨s, t, h⟩
      cases s with
      | nil =>
        left
        simp only [List.nil_append, List.cons_append, List.cons.injEq] at h
        obtain ⟨rfl, rfl⟩ := h
        simp
      | cons a s =>
        right
        simp only [List.cons_append, List.cons.injEq, List.append_assoc] at h
        exact ⟨s, t, by simpa using h.2⟩

theorem not_hasDouble_of_absent (d : Char) (l : List Char) (h : ¬ [d, d] <:+: l) :
    hasDouble d l = false := by
  cases hd : hasDouble d l with
  | false => rfl
  | true => exact absurd ((hasDouble_iff_occurs d l).1 hd) h

theorem execNodes_textNode (data : Data) (s : List Char) : execNodes data (textNode s) = s := by
  unfold textNode
  split
  · next h => simp [execNodes, h]
  · simp [execNodes]

/-- A body without the left delimiter parses into its own text. -/
theorem templateParse_plain (str : String) (h : hasDouble '\x7b' str.data = false) :
    templateParse str = some (textNode str.data) := by
  simp [templateParse, parseAux, splitAtDelim_of_not_hasDouble _ _ h]

theorem templateExecute_plain (str : String) (data : Data) :
    templateExecute (textNode str.data) data = str := by
  simp [templateExecute, execNodes_textNode]

theorem splitAtDelim_length (d : Char) : ∀ (l rest : List Char),
    (splitAtDelim d l).2 = some rest → rest.length < l.length
  | [], rest, h => by simp [splitAtDelim] at h
  | c :: cs, rest, h => by
    by_cases hc : c = d ∧ cs.head? = some d
    · simp only [splitAtDelim, hc, and_self, if_true, Option.some.injEq] at h
      subst h
      simp only [List.length_tail, List.length_cons]
      omega
    · simp only [splitAtDelim, hc, if_false] at h
      have := splitAtDelim_length d cs rest h
      simp only [List.length_cons]
      omega

/-- Fuel above the length of the input does not change the result of the parsing loop: the
loop does not stop for lack of fuel in `templateParse`. -/
theorem parseAux_fuel : ∀ (f1 f2 : Nat) (input : List Char),
    input.length < f1 → input.length < f2 → parseAux f1 input = parseAux f2 input
  | 0, _, _, h, _ => by omega
  | _ + 1, 0, _, _, h => by omega
  | a + 1, b + 1, input, h1, h2 => by
    rw [parseAux, parseAux]
    cases hs : splitAtDelim '\x7b' input with
    | mk t r =>
      cases r with
      | none => rfl
      | some rest =>
        have hl1 := splitAtDelim_length '\x7b' input rest (by rw [hs])
        simp only
        cases hs2 : splitAtDelim '\x7d' rest with
        | mk act r2 =>
          cases r2 with
          | none => rfl
          | some rest2 =>
            have hl2 := splitAtDelim_length '\x7d' rest rest2 (by rw [hs2])
            simp only
            rw [parseAux_fuel a b rest2 (by omega) (by omega)]

theorem replaceAllAux_skip (old new : List Char) :
    ∀ l X : List Char, replaceAllAux old new l.length (l ++ X) = replaceAllAux old new 0 X
  | [], X => by simp
  | a :: l, X => by
    simp only [List.length_cons, List.cons_append, replaceAllAux]
    exact replaceAllAux_skip old new l X

theorem replaceAllAux_old (old new X : List Char) (h : old ≠ []) :
    replaceAllAux old new 0 (old ++ X) = new ++ replaceAllAux old new 0 X := by
  cases old with
  | nil => exact absurd rfl h
  | cons c o =>
    have hp : (c :: o).isPrefixOf (c :: (o ++ X)) = true := by
      rw [← List.cons_append, List.isPrefixOf_iff_prefix]
      exact List.prefix_append _ _
    have h1 : replaceAllAux (c :: o) new 0 (c :: (o ++ X))
        = new ++ replaceAllAux (c :: o) new o.length (o ++ X) := by
      rw [replaceAllAux, if_pos hp]
      simp
    rw [List.cons_append, h1, replaceAllAux_skip]

theorem replaceAllAux_text (old new : List Char) :
    ∀ t X : List Char, noMatchIn old t X = true →
      replaceAllAux old new 0 (t ++ X) = t ++ replaceAllAux old new 0 X
  | [], X, _ => by simp
  | c :: t, X, h => by
    simp only [noMatchIn, Bool.and_eq_true, Bool.not_eq_true', ] at h
    have ih := replaceAllAux_text old new t X h.2
    simp [replaceAllAux, h.1, ih]

theorem evalField_projectName (N : String) :
    evalField [("ProjectName", N)] "ProjectName".data = N.data := by
  simp [evalField, List.lookup]

theorem placeholder_ne_nil : placeholder ≠ [] := by decide

/-- Replacing the placeholder in the unparsed text is executing the nodes. -/
theorem replaceAllAux_unparse (N : String) :
    ∀ ns : List TNode, canonical ns = true →
      replaceAllAux placeholder N.data 0 (unparse ns) = execNodes [("ProjectName", N)] ns
  | [], _ => rfl
  | TNode.text s :: rest, h => by
    simp only [canonical, Bool.and_eq_true] at h
    simp only [unparse, execNodes]
    rw [replaceAllAux_text _ _ _ _ h.1, replaceAllAux_unparse N rest h.2]
  | TNode.field name :: rest, h => by
    simp only [canonical, Bool.and_eq_true, decide_eq_true_eq] at h
    simp only [unparse, execNodes]
    rw [replaceAllAux_old _ _ _ placeholder_ne_nil, replaceAllAux_unparse N rest h.2, h.1,
      evalField_projectName]

/-- A checked body renders to its substitution. -/
theorem render_of_checkBody (str N : String) (h : checkBody str = true) :
    ∃ t, templateParse str = some t ∧
      templateExecute t [("ProjectName", N)] = substitute str N := by
  unfold checkBody at h
  cases hp : templateParse str with
  | none => simp [hp] at h
  | some ns =>
    simp only [hp, Bool.and_eq_true, decide_eq_true_eq] at h
    refine ⟨ns, rfl, ?_⟩
    simp only [templateExecute, substitute]
    rw [← h.1, replaceAllAux_unparse N ns h.2]


theorem hasDouble_append (d : Char) : ∀ a b : List Char,
    hasDouble d (a ++ b) =
      (hasDouble d a || hasDouble d b || (decide (a.getLast? = some d) && decide (b.head? = some d)))
  | [], b => by simp [hasDouble]
  | [c], b => by
    by_cases hc : c = d <;> by_cases hb : b.head? = some d <;> simp [hasDouble, hc, hb]
  | c :: e :: a, b => by
    have ih := hasDouble_append d (e :: a) b
    rw [List.cons_append, hasDouble, ih]
    simp only [List.cons_append, List.head?_cons, hasDouble, List.getLast?_cons_cons]
    simp only [Bool.or_assoc]

theorem hasDouble_append_false (d : Char) (a b : List Char) (ha : hasDouble d a = false)
    (hb : hasDouble d b = false) (hab : a.getLast? ≠ some d ∨ b.head? ≠ some d) :
    hasDouble d (a ++ b) = false := by
  rw [hasDouble_append, ha, hb]
  rcases hab with h | h <;> simp [h]

/-- Executing nodes with safe texts yields no doubled delimiter character when the
values of the fields have none. -/
theorem hasDouble_execNodes (d : Char) (data : Data)
    (hv : ∀ name, hasDouble d (evalField data name) = false) :
    ∀ ns : List TNode, safeNodes d ns = true →
      hasDouble d (execNodes data ns) = false ∧
        ((∀ name rest, ns ≠ TNode.field name :: rest) → (execNodes data ns).head? ≠ some d)
  | [], _ => by simp [execNodes, hasDouble]
  | TNode.text s :: rest, h => by
    simp only [safeNodes, safeText, Bool.and_eq_true, Bool.not_eq_true', decide_eq_true_eq] at h
    obtain ⟨⟨⟨⟨h1, h2⟩, h3⟩, h4⟩, h5⟩ := h
    have ih := hasDouble_execNodes d data hv rest h5
    refine ⟨?_, fun _ => ?_⟩
    · exact hasDouble_append_false d s _ h1 ih.1 (Or.inl h3)
    · cases s with
      | nil => exact absurd rfl h4
      | cons c s => simpa [execNodes] using h2
  | [TNode.field _], h => by simp [safeNodes] at h
  | TNode.field _ :: TNode.field _ :: _, h => by simp [safeNodes] at h
  | TNode.field name :: TNode.text s :: rest, h => by
    have h' : safeNodes d (TNode.text s :: rest) = true := by
      simpa [safeNodes] using h
    have ih := hasDouble_execNodes d data hv (TNode.text s :: rest) h'
    refine ⟨?_, fun hne => absurd rfl (hne name _)⟩
    rw [execNodes]
    exact hasDouble_append_false d _ _ (hv name) ih.1
      (Or.inr (ih.2 (fun _ _ hc => by cases hc)))

theorem name_occurs_execNodes (N : String) :
    ∀ ns : List TNode, ns.any isNameField = true →
      N.data <:+: execNodes [("ProjectName", N)] ns
  | [], h => by simp at h
  | TNode.text s :: rest, h => by
    have h' : rest.any isNameField = true := by simpa [isNameField] using h
    rw [execNodes]
    exact (name_occurs_execNodes N rest h').trans (List.suffix_append _ _).isInfix
  | TNode.field name :: rest, h => by
    rw [execNodes]
    by_cases hn : name = "ProjectName".data
    · rw [hn, evalField_projectName]
      exact (List.prefix_append _ _).isInfix
    · have h' : rest.any isNameField = true := by simpa [isNameField, hn] using h
      exact (name_occurs_execNodes N rest h').trans (List.suffix_append _ _).isInfix

theorem execNodes_ne_nil (data : Data) :
    ∀ ns : List TNode, ns.any isSolidText = true → execNodes data ns ≠ []
  | [], h => by simp at h
  | TNode.text s :: rest, h => by
    rw [execNodes]
    by_cases hs : s = []
    · have h' : rest.any isSolidText = true := by simpa [isSolidText, hs] using h
      simpa [hs] using execNodes_ne_nil data rest h'
    · simp [hs]
  | TNode.field name :: rest, h => by
    have h' : rest.any isSolidText = true := by simpa [isSolidText] using h
    rw [execNodes]
    simp [execNodes_ne_nil data rest h']

theorem hasDouble_evalField (d : Char) (N : String) (hN : hasDouble d N.data = false)
    (hd : hasDouble d "<no value>".data = false) (name : List Char) :
    hasDouble d (evalField [("ProjectName", N)] name) = false := by
  unfold evalField
  cases hb : (String.mk name == "ProjectName") with
  | true => simpa [List.lookup, hb] using hN
  | false => simpa [List.lookup, hb] using hd

/-! ## Lemmas on the directory tree -/

theorem stepInto_plain (cur : Path) (c : String) (h : plain c = true) :
    stepInto cur c = cur ++ [c] := by
  simp only [plain, decide_eq_true_eq] at h
  simp [stepInto, h.1, h.2.1, h.2.2]

theorem stepInto_dot (cur : Path) : stepInto cur "." = cur := by
  simp [stepInto]

theorem walkDirs_dir (fs : FS) : ∀ (cs : List String) (cur p : Path),
    walkDirs fs cur cs = some p → fs cur = some Node.dir
  | [], cur, p, h => by
    by_cases hc : fs cur = some Node.dir
    · exact hc
    · simp [walkDirs, hc] at h
  | c :: cs, cur, p, h => by
    by_cases hc : fs cur = some Node.dir
    · exact hc
    · simp [walkDirs, hc] at h

theorem walkDirs_dot (fs : FS) (cur : Path) (cs : List String) :
    walkDirs fs cur ("." :: cs) = walkDirs fs cur cs := by
  rw [walkDirs, stepInto_dot]
  by_cases hc : fs cur = some Node.dir
  · simp [hc]
  · simp only [hc, if_false]
    cases h : walkDirs fs cur cs with
    | none => rfl
    | some p => exact absurd (walkDirs_dir fs cs cur p h) hc

theorem walkDirs_plain_some (fs : FS) : ∀ (ds : List String) (r p : Path),
    (∀ c ∈ ds, plain c = true) → walkDirs fs r ds = some p →
      p = r ++ ds ∧ ∀ d, d <+: ds → fs (r ++ d) = some Node.dir
  | [], r, p, _, h => by
    by_cases hc : fs r = some Node.dir
    · simp only [walkDirs, hc, if_true, Option.some.injEq] at h
      subst h
      refine ⟨by simp, fun d hd => ?_⟩
      rw [List.prefix_nil] at hd
      simpa [hd] using hc
    · simp [walkDirs, hc] at h
  | c :: ds, r, p, hp, h => by
    have hr := walkDirs_dir fs _ _ _ h
    rw [walkDirs, if_pos hr, stepInto_plain _ _ (hp c (List.mem_cons_self _ _))] at h
    have ih := walkDirs_plain_some fs ds (r ++ [c]) p
      (fun x hx => hp x (List.mem_cons_of_mem _ hx)) h
    refine ⟨by simpa using ih.1, fun d hd => ?_⟩
    rcases List.prefix_cons_iff.1 hd with rfl | ⟨t, rfl, ht⟩
    · simpa using hr
    · simpa using ih.2 t ht

theorem walkDirs_plain_of (fs : FS) : ∀ (ds : List String) (r : Path),
    (∀ c ∈ ds, plain c = true) → (∀ d, d <+: ds → fs (r ++ d) = some Node.dir) →
      walkDirs fs r ds = some (r ++ ds)
  | [], r, _, h => by
    have hr : fs r = some Node.dir := by simpa using h [] (List.prefix_refl _)
    simp [walkDirs, hr]
  | c :: ds, r, hp, h => by
    have hr : fs r = some Node.dir := by simpa using h [] (List.nil_prefix)
    rw [walkDirs, if_pos hr, stepInto_plain _ _ (hp c (List.mem_cons_self _ _))]
    have ih := walkDirs_plain_of fs ds (r ++ [c])
      (fun x hx => hp x (List.mem_cons_of_mem _ hx))
      (fun d hd => by simpa using h (c :: d) (by simpa using hd))
    simpa using ih

theorem walkDirs_mono (fs fs2 : FS) (hm : ∀ p, fs p = some Node.dir → fs2 p = some Node.dir) :
    ∀ (cs : List String) (cur q : Path), walkDirs fs cur cs = some q →
      walkDirs fs2 cur cs = some q
  | [], cur, q, h => by
    have hr := walkDirs_dir fs _ _ _ h
    simp only [walkDirs, hr, if_true] at h
    simp [walkDirs, hm _ hr, h]
  | c :: cs, cur, q, h => by
    have hr := walkDirs_dir fs _ _ _ h
    rw [walkDirs, if_pos hr] at h
    rw [walkDirs, if_pos (hm _ hr)]
    exact walkDirs_mono fs fs2 hm cs _ q h

theorem DirExt.unchanged (fs : FS) : DirExt fs fs := fun _ => Or.inl rfl

theorem DirExt.compose {a b c : FS} (h1 : DirExt a b) (h2 : DirExt b c) : DirExt a c := by
  intro p
  rcases h2 p with h | ⟨hn, hd⟩
  · rcases h1 p with h' | ⟨hn', hd'⟩
    · exact Or.inl (h.trans h')
    · exact Or.inr ⟨hn', h.trans hd'⟩
  · rcases h1 p with h' | ⟨hn', hd'⟩
    · exact Or.inr ⟨h' ▸ hn, hd⟩
    · rw [hd'] at hn
      cases hn

theorem DirExt.update (fs : FS) (q : Path) (h : fs q = none) :
    DirExt fs (Function.update fs q (some Node.dir)) := by
  intro p
  by_cases hp : p = q
  · subst hp
    exact Or.inr ⟨h, by simp⟩
  · exact Or.inl (by simp [Function.update_noteq hp])

theorem DirExt.dirKept {fs fs' : FS} (h : DirExt fs fs') (p : Path) (hp : fs p = some Node.dir) :
    fs' p = some Node.dir := by
  rcases h p with h' | ⟨hn, _⟩
  · rw [h', hp]
  · rw [hp] at hn
    cases hn

theorem mkdirWalk_dirExt : ∀ (cs : List String) (fs : FS) (cur : Path),
    DirExt fs (mkdirWalk fs cur cs).1
  | [], fs, cur => by simpa [mkdirWalk] using DirExt.unchanged fs
  | c :: cs, fs, cur => by
    rw [mkdirWalk]
    by_cases hc : fs cur = some Node.dir
    · rw [if_pos hc]
      cases hn : fs (stepInto cur c) with
      | none =>
        exact (DirExt.update fs _ hn).compose (mkdirWalk_dirExt cs _ _)
      | some n =>
        cases n with
        | dir => exact mkdirWalk_dirExt cs _ _
        | file content => exact DirExt.unchanged fs
    · rw [if_neg hc]
      exact DirExt.unchanged fs

/-- A second `MkdirAll` of the same path, in a tree that kept the directories, makes nothing. -/
theorem mkdirWalk_replay (fs2 : FS) : ∀ (cs : List String) (fs : FS) (cur : Path),
    (mkdirWalk fs cur cs).2 = true →
    (∀ p, (mkdirWalk fs cur cs).1 p = some Node.dir → fs2 p = some Node.dir) →
      mkdirWalk fs2 cur cs = (fs2, true)
  | [], fs, cur, h, hm => by
    simp only [mkdirWalk, decide_eq_true_eq] at h hm
    simp [mkdirWalk, hm _ h]
  | c :: cs, fs, cur, h, hm => by
    have hext := mkdirWalk_dirExt (c :: cs) fs cur
    rw [mkdirWalk] at h hm
    by_cases hc : fs cur = some Node.dir
    · rw [if_pos hc] at h hm
      have hc2 : fs2 cur = some Node.dir := hm _ (by
        have := hext.dirKept cur hc
        rw [mkdirWalk, if_pos hc] at this
        exact this)
      rw [mkdirWalk, if_pos hc2]
      cases hn : fs (stepInto cur c) with
      | none =>
        simp only [hn] at h hm
        have hd : fs2 (stepInto cur c) = some Node.dir :=
          hm _ ((mkdirWalk_dirExt cs _ _).dirKept _ (by simp))
        simp only [hd]
        exact mkdirWalk_replay fs2 cs _ _ h hm
      | some n =>
        cases n with
        | dir =>
          simp only [hn] at h hm
          have hd : fs2 (stepInto cur c) = some Node.dir :=
            hm _ ((mkdirWalk_dirExt cs _ _).dirKept _ hn)
          simp only [hd]
          exact mkdirWalk_replay fs2 cs _ _ h hm
        | file content => simp [hn] at h
    · simp [hc] at h


theorem mkdirWalk_plain_frame : ∀ (ds : List String) (fs : FS) (r : Path),
    (∀ c ∈ ds, plain c = true) → ∀ p, (mkdirWalk fs r ds).1 p = fs p ∨
      (fs p = none ∧ (mkdirWalk fs r ds).1 p = some Node.dir ∧ ∃ d, d <+: ds ∧ p = r ++ d)
  | [], fs, r, _, p => by simp [mkdirWalk]
  | c :: ds, fs, r, hp, p => by
    have hpl := hp c (List.mem_cons_self _ _)
    have hp' : ∀ x ∈ ds, plain x = true := fun x hx => hp x (List.mem_cons_of_mem _ hx)
    rw [mkdirWalk, stepInto_plain _ _ hpl]
    by_cases hc : fs r = some Node.dir
    · rw [if_pos hc]
      cases hn : fs (r ++ [c]) with
      | none =>
        simp only
        rcases mkdirWalk_plain_frame ds (Function.update fs (r ++ [c]) (some Node.dir))
          (r ++ [c]) hp' p with h | ⟨h1, h2, d, hd, rfl⟩
        · by_cases hpe : p = r ++ [c]
          · subst hpe
            right
            refine ⟨hn, ?_, [c], by simp, rfl⟩
            rw [h]
            simp
          · left
            rw [h, Function.update_noteq hpe]
        · right
          have hne : r ++ [c] ++ d ≠ r ++ [c] := by
            intro he
            rw [he] at h1
            simp at h1
          rw [Function.update_noteq hne] at h1
          exact ⟨h1, h2, c :: d, by simpa using hd, by simp⟩
      | some n =>
        cases n with
        | dir =>
          simp only
          rcases mkdirWalk_plain_frame ds fs (r ++ [c]) hp' p with h | ⟨h1, h2, d, hd, rfl⟩
          · exact Or.inl h
          · exact Or.inr ⟨h1, h2, c :: d, by simpa using hd, by simp⟩
        | file content => exact Or.inl rfl
    · rw [if_neg hc]
      exact Or.inl rfl

theorem mkdirWalk_plain_dirs : ∀ (ds : List String) (fs : FS) (r : Path),
    (∀ c ∈ ds, plain c = true) → (mkdirWalk fs r ds).2 = true →
      ∀ d, d <+: ds → (mkdirWalk fs r ds).1 (r ++ d) = some Node.dir
  | [], fs, r, _, h, d, hd => by
    rw [List.prefix_nil] at hd
    subst hd
    simpa [mkdirWalk] using h
  | c :: ds, fs, r, hp, h, d, hd => by
    have hpl := hp c (List.mem_cons_self _ _)
    have hp' : ∀ x ∈ ds, plain x = true := fun x hx => hp x (List.mem_cons_of_mem _ hx)
    have hext := mkdirWalk_dirExt (c :: ds) fs r
    by_cases hc : fs r = some Node.dir
    · rcases List.prefix_cons_iff.1 hd with rfl | ⟨t, rfl, ht⟩
      · simpa using hext.dirKept r hc
      · rw [mkdirWalk, stepInto_plain _ _ hpl, if_pos hc] at h ⊢
        cases hn : fs (r ++ [c]) with
        | none =>
          simp only [hn] at h ⊢
          simpa using mkdirWalk_plain_dirs ds _ (r ++ [c]) hp' h t ht
        | some n =>
          cases n with
          | dir =>
            simp only [hn] at h ⊢
            simpa using mkdirWalk_plain_dirs ds _ (r ++ [c]) hp' h t ht
          | file content => simp [hn] at h
    · simp [mkdirWalk, hc] at h

theorem mkdirWalk_plain_noop : ∀ (ds : List String) (fs : FS) (r : Path),
    (∀ c ∈ ds, plain c = true) → (∀ d, d <+: ds → fs (r ++ d) = some Node.dir) →
      mkdirWalk fs r ds = (fs, true)
  | [], fs, r, _, h => by
    have hr : fs r = some Node.dir := by simpa using h [] (List.prefix_refl _)
    simp [mkdirWalk, hr]
  | c :: ds, fs, r, hp, h => by
    have hpl := hp c (List.mem_cons_self _ _)
    have hp' : ∀ x ∈ ds, plain x = true := fun x hx => hp x (List.mem_cons_of_mem _ hx)
    have hr : fs r = some Node.dir := by simpa using h [] List.nil_prefix
    have hn : fs (r ++ [c]) = some Node.dir := h [c] (by simp)
    rw [mkdirWalk, stepInto_plain _ _ hpl, if_pos hr]
    simp only [hn]
    exact mkdirWalk_plain_noop ds fs (r ++ [c]) hp'
      (fun d hd => by simpa using h (c :: d) (by simpa using hd))

theorem mkdirWalk_plain_ok : ∀ (ds : List String) (fs : FS) (r : Path),
    (∀ c ∈ ds, plain c = true) → fs r = some Node.dir →
    (∀ d, d <+: ds → ∀ content, fs (r ++ d) ≠ some (Node.file content)) →
      (mkdirWalk fs r ds).2 = true
  | [], fs, r, _, hr, _ => by simp [mkdirWalk, hr]
  | c :: ds, fs, r, hp, hr, h => by
    have hpl := hp c (List.mem_cons_self _ _)
    have hp' : ∀ x ∈ ds, plain x = true := fun x hx => hp x (List.mem_cons_of_mem _ hx)
    rw [mkdirWalk, stepInto_plain _ _ hpl, if_pos hr]
    cases hn : fs (r ++ [c]) with
    | none =>
      simp only
      refine mkdirWalk_plain_ok ds _ (r ++ [c]) hp' (by simp) (fun d hd content => ?_)
      by_cases he : r ++ [c] ++ d = r ++ [c]
      · rw [he]
        simp
      · rw [Function.update_noteq he]
        simpa using h (c :: d) (by simpa using hd) content
    | some n =>
      cases n with
      | dir =>
        simp only
        exact mkdirWalk_plain_ok ds fs (r ++ [c]) hp' hn
          (fun d hd content => by simpa using h (c :: d) (by simpa using hd) content)
      | file content => exact absurd hn (h [c] (by simp) content)

theorem isFile_dir : isFile (some Node.dir) = false := rfl

theorem isFile_none : isFile none = false := rfl

theorem isFile_file (c : String) : isFile (some (Node.file c)) = true := rfl

theorem isFile_iff (x : Option Node) : isFile x = true ↔ ∃ c, x = some (Node.file c) := by
  cases x with
  | none => simp [isFile]
  | some n =>
    cases n with
    | dir => simp [isFile]
    | file c => simp [isFile]

theorem ne_dir_of_isFile {x : Option Node} (h : isFile x = true) : x ≠ some Node.dir := by
  intro hc
  rw [hc] at h
  cases h

theorem Frame.stay (r : Path) (D : List (List String)) (E : List (List String × String))
    (fs : FS) : Frame r D E fs fs := fun _ => Or.inl rfl

theorem Frame.chain {r : Path} {D : List (List String)} {E : List (List String × String)}
    {a b c : FS} (h1 : Frame r D E a b) (h2 : Frame r D E b c) : Frame r D E a c := by
  intro p
  rcases h2 p with h | ⟨hn, hd, hD⟩ | ⟨hn, hf, hE⟩ | ⟨hf1, hf2⟩
  · rcases h1 p with h' | ⟨hn', hd', hD'⟩ | ⟨hn', hf', hE'⟩ | ⟨hf1', hf2'⟩
    · exact Or.inl (h.trans h')
    · exact Or.inr (Or.inl ⟨hn', h.trans hd', hD'⟩)
    · exact Or.inr (Or.inr (Or.inl ⟨hn', by rw [h]; exact hf', hE'⟩))
    · exact Or.inr (Or.inr (Or.inr ⟨hf1', by rw [h]; exact hf2'⟩))
  · rcases h1 p with h' | ⟨_, hd', _⟩ | ⟨_, hf', _⟩ | ⟨_, hf2'⟩
    · exact Or.inr (Or.inl ⟨h' ▸ hn, hd, hD⟩)
    · rw [hd'] at hn
      cases hn
    · rw [hn] at hf'
      cases hf'
    · rw [hn] at hf2'
      cases hf2'
  · rcases h1 p with h' | ⟨hn', _, _⟩ | ⟨hn', _, _⟩ | ⟨hf1', _⟩
    · exact Or.inr (Or.inr (Or.inl ⟨h' ▸ hn, hf, hE⟩))
    · exact Or.inr (Or.inr (Or.inl ⟨by rw [hn']; simp, hf, hE⟩))
    · exact Or.inr (Or.inr (Or.inl ⟨hn', hf, hE⟩))
    · exact Or.inr (Or.inr (Or.inr ⟨hf1', hf⟩))
  · rcases h1 p with h' | ⟨_, hd', _⟩ | ⟨hn', _, hE'⟩ | ⟨hf1', _⟩
    · exact Or.inr (Or.inr (Or.inr ⟨h' ▸ hf1, hf2⟩))
    · rw [hd'] at hf1
      cases hf1
    · exact Or.inr (Or.inr (Or.inl ⟨hn', hf2, hE'⟩))
    · exact Or.inr (Or.inr (Or.inr ⟨hf1', hf2⟩))

theorem Frame.widen {r : Path} {D D' : List (List String)} {E E' : List (List String × String)}
    {a b : FS} (h : Frame r D E a b) (hD : ∀ d ∈ D, d ∈ D') (hE : ∀ e ∈ E, e ∈ E') :
    Frame r D' E' a b := by
  intro p
  rcases h p with h | ⟨hn, hd, d, hd', hp⟩ | ⟨hn, hf, e, he, hp⟩ | h
  · exact Or.inl h
  · exact Or.inr (Or.inl ⟨hn, hd, d, hD d hd', hp⟩)
  · exact Or.inr (Or.inr (Or.inl ⟨hn, hf, e, hE e he, hp⟩))
  · exact Or.inr (Or.inr (Or.inr h))

theorem Frame.dirStays {r : Path} {D : List (List String)} {E : List (List String × String)}
    {a b : FS} (h : Frame r D E a b) (p : Path) (hp : a p = some Node.dir) :
    b p = some Node.dir := by
  rcases h p with h' | ⟨hn, _, _⟩ | ⟨hn, _⟩ | ⟨hf, _⟩
  · rw [h', hp]
  · rw [hp] at hn
    cases hn
  · exact absurd hp hn
  · rw [hp] at hf
    cases hf

theorem Frame.fileFrom {r : Path} {D : List (List String)} {E : List (List String × String)}
    {a b : FS} (h : Frame r D E a b) (p : Path) (hp : isFile (b p) = true) :
    isFile (a p) = true ∨ ∃ e ∈ E, p = r ++ e.1 := by
  rcases h p with h' | ⟨_, hd, _⟩ | ⟨_, _, hE⟩ | ⟨hf, _⟩
  · exact Or.inl (h' ▸ hp)
  · rw [hd] at hp
    cases hp
  · exact Or.inr hE
  · exact Or.inl hf

/-! ## One creator call -/

@[simp] theorem world_running (w : World) : (Outcome.running w).world = w := rfl

@[simp] theorem world_exited (w : World) : (Outcome.exited w).world = w := rfl

@[simp] theorem isRunning_running (w : World) : (Outcome.running w).isRunning = true := rfl

@[simp] theorem isRunning_exited (w : World) : (Outcome.exited w).isRunning = false := rfl

@[simp] theorem andThen_running_eq (w : World) (f : World → Outcome) :
    (Outcome.running w).andThen f = f w := rfl

@[simp] theorem andThen_exited_eq (w : World) (f : World → Outcome) :
    (Outcome.exited w).andThen f = Outcome.exited w := rfl

theorem createTarget_rel (path : String) (t : List String) (h : RelFile path t = true)
    (w : World) (f : Path) :
    createTarget path w = some f ↔
      f = w.cwd ++ t ∧ (∀ d, d <+: t.dropLast → w.fs (w.cwd ++ d) = some Node.dir) ∧
        w.fs (w.cwd ++ t) ≠ some Node.dir := by
  simp only [RelFile, Bool.and_eq_true, decide_eq_true_eq, List.all_eq_true] at h
  obtain ⟨⟨habs, hcomp, hne⟩, hpl⟩ := h
  have hdl : ("." :: t).dropLast = "." :: t.dropLast := by
    cases t with
    | nil => exact absurd rfl hne
    | cons a t => rfl
  have hgl : ("." :: t).getLast? = some (t.getLast hne) := by
    cases t with
    | nil => exact absurd rfl hne
    | cons a t => simp [List.getLast?_cons_cons, List.getLast?_eq_getLast]
  have hplast : plain (t.getLast hne) = true := hpl _ (List.getLast_mem hne)
  have hpd : ∀ c ∈ t.dropLast, plain c = true := fun c hc => hpl c (List.dropLast_subset t hc)
  have hlast : ¬ (t.getLast hne = "" ∨ t.getLast hne = "." ∨ t.getLast hne = "..") := by
    simp only [plain, decide_eq_true_eq] at hplast
    tauto
  have hjoin : ∀ r : Path, r ++ t.dropLast ++ [t.getLast hne] = r ++ t := by
    intro r
    rw [List.append_assoc, List.dropLast_concat_getLast]
  unfold createTarget
  simp only [startOf, habs, if_false, hcomp, hdl, hgl, walkDirs_dot]
  cases hw : walkDirs w.fs w.cwd t.dropLast with
  | none =>
    simp only
    constructor
    · intro h
      cases h
    · rintro ⟨_, hd, _⟩
      rw [walkDirs_plain_of w.fs _ _ hpd hd] at hw
      cases hw
  | some parent =>
    obtain ⟨hparent, hdirs⟩ := walkDirs_plain_some w.fs _ _ _ hpd hw
    subst hparent
    simp only [if_neg hlast, hjoin]
    by_cases hdir : w.fs (w.cwd ++ t) = some Node.dir
    · simp [hdir]
    · simp only [if_neg hdir, Option.some.injEq]
      constructor
      · intro h
        exact ⟨h.symm, hdirs, hdir⟩
      · intro h
        exact h.1.symm

theorem world_ext (a b : World) (h1 : a.fs = b.fs) (h2 : a.cwd = b.cwd)
    (h3 : a.stderr = b.stderr) (h4 : a.links = b.links) : a = b := by
  cases a
  cases b
  simp only [World.mk.injEq]
  exact ⟨h1, h2, h3, h4⟩

theorem namesOf_self (w : World) (f : Path) : namesOf w f f = true := by
  simp [namesOf]

theorem namesOf_setContent (w : World) (f p : Path) (c : String) :
    namesOf (setContent f c w) f p = namesOf w f p := by
  by_cases h1 : p = f
  · simp [namesOf, h1]
  · by_cases h2 : p ∈ w.links f
    · have e1 : namesOf w f p = isFile (w.fs p) := by simp [namesOf, h1, h2]
      show (decide (p = f) || (decide (p ∈ w.links f) &&
        isFile (if namesOf w f p = true then some (Node.file c) else w.fs p)))
          = namesOf w f p
      rw [e1]
      cases h3 : isFile (w.fs p) <;> simp [h1, h2, h3, isFile_file]
    · simp [namesOf, setContent, h1, h2]

theorem empty_append (s : String) : ("" : String) ++ s = s := by
  apply String.ext
  simp

theorem fileWrite_created (f : Path) (s : String) (w : World) :
    fileWrite f s (if isFile (w.fs f) = true then setContent f "" w
      else { w with fs := Function.update w.fs f (some (Node.file "")),
                    links := Function.update w.links f [] })
      = some (written f s w) := by
  by_cases hfile : isFile (w.fs f) = true
  · have h1 : (setContent f "" w).fs f = some (Node.file "") := by
      simp [setContent, namesOf_self]
    simp only [hfile, if_true, written, fileWrite, h1, empty_append, Option.some.injEq]
    apply world_ext
    · funext p
      show (if namesOf (setContent f "" w) f p = true then some (Node.file s)
        else (setContent f "" w).fs p) = _
      rw [namesOf_setContent]
      by_cases hn : namesOf w f p = true <;> simp [setContent, hn]
    · rfl
    · rfl
    · rfl
  · simp only [hfile, if_false, written, fileWrite, Function.update_same, empty_append,
      Option.some.injEq, Bool.false_eq_true]
    apply world_ext
    · funext p
      by_cases hp : p = f
      · subst hp
        simp [setContent, namesOf]
      · simp [setContent, namesOf, hp, Function.update_noteq hp]
    · rfl
    · rfl
    · rfl

theorem written_cwd (f : Path) (s : String) (w : World) : (written f s w).cwd = w.cwd := by
  unfold written
  split <;> rfl

theorem written_stderr (f : Path) (s : String) (w : World) :
    (written f s w).stderr = w.stderr := by
  unfold written
  split <;> rfl

theorem written_self (f : Path) (s : String) (w : World) :
    (written f s w).fs f = some (Node.file s) := by
  unfold written
  split
  · simp [setContent, namesOf_self]
  · simp

/-- What a write changes: the file at `f`, and the existing files that are names of it. -/
theorem written_cases (f : Path) (s : String) (w : World) (p : Path) :
    (written f s w).fs p = w.fs p ∨ p = f ∨
      (isFile (w.fs p) = true ∧ isFile (w.fs f) = true ∧ p ∈ w.links f ∧
        (written f s w).fs p = some (Node.file s)) := by
  by_cases hp : p = f
  · exact Or.inr (Or.inl hp)
  · unfold written
    by_cases hfile : isFile (w.fs f) = true
    · simp only [hfile, if_true]
      by_cases hn : namesOf w f p = true
      · right
        right
        have hn' := hn
        simp only [namesOf, hp, decide_False, Bool.false_or, Bool.and_eq_true,
          decide_eq_true_eq] at hn'
        exact ⟨hn'.2, trivial, hn'.1, by simp [setContent, hn]⟩
      · left
        simp [setContent, hn]
    · left
      simp [hfile, Function.update_noteq hp]

theorem written_links_old (f : Path) (s : String) (w : World) (p : Path)
    (h : isFile (w.fs p) = true) : (written f s w).links p = w.links p := by
  unfold written
  by_cases hfile : isFile (w.fs f) = true
  · simp [hfile, setContent]
  · have hp : p ≠ f := by
      rintro rfl
      exact hfile h
    simp [hfile, Function.update_noteq hp]

theorem written_links_new (f : Path) (s : String) (w : World) (p : Path)
    (h : isFile (w.fs p) = false) (h' : isFile ((written f s w).fs p) = true) :
    (written f s w).links p = [] := by
  rcases written_cases f s w p with hc | hc | ⟨hc, _⟩
  · rw [hc, h] at h'
    cases h'
  · subst hc
    unfold written
    simp [h]
  · rw [h] at hc
    cases hc

theorem written_settled (f : Path) (s : String) (w : World) (q : Path)
    (hq : q ∈ (written f s w).links f) (hfile : isFile ((written f s w).fs q) = true) :
    (written f s w).fs q = some (Node.file s) := by
  by_cases hf : isFile (w.fs f) = true
  · rcases written_cases f s w q with hc | hc | ⟨_, _, _, hc⟩
    · rw [written_links_old f s w f hf] at hq
      rw [hc] at hfile
      have hn : namesOf w f q = true := by simp [namesOf, hq, hfile]
      unfold written
      simp [hf, setContent, hn]
    · rw [hc]
      exact written_self f s w
    · exact hc
  · have : (written f s w).links f = [] := by
      unfold written
      simp [hf]
    rw [this] at hq
    cases hq

theorem written_noop (f : Path) (s : String) (w : World) (hf : w.fs f = some (Node.file s))
    (hs : ∀ q ∈ w.links f, isFile (w.fs q) = true → w.fs q = some (Node.file s)) :
    written f s w = w := by
  have hfile : isFile (w.fs f) = true := by rw [hf]; rfl
  unfold written
  simp only [hfile, if_true]
  apply world_ext
  · funext p
    show (if namesOf w f p = true then some (Node.file s) else w.fs p) = w.fs p
    by_cases hn : namesOf w f p = true
    · rw [if_pos hn]
      by_cases hp : p = f
      · rw [hp, hf]
      · simp only [namesOf, hp, decide_False, Bool.false_or, Bool.and_eq_true,
          decide_eq_true_eq] at hn
        exact (hs p hn.1 hn.2).symm
    · rw [if_neg hn]
  · rfl
  · rfl
  · rfl

/-- A creator call whose file can be created writes the rendered content. -/
theorem createFile_ok (path str N : String) (w : World) (f : Path) (ns : List TNode)
    (hf : createTarget path w = some f) (hp : templateParse str = some ns) :
    createFileFromTemplate path str N w = Outcome.running
      (written f (templateExecute ns [("ProjectName", N)]) w) := by
  simp [createFileFromTemplate, osCreate, hf, hp, fileWrite_created, fileClose]

/-- A creator call whose file cannot be created logs a line and returns. -/
theorem createFile_fail (path str N : String) (w : World) (hf : createTarget path w = none) :
    createFileFromTemplate path str N w
      = Outcome.running (printErr ("create file: " ++ path) w) := by
  simp [createFileFromTemplate, osCreate, hf]

theorem osMkdirAll_rel (dir : String) (ds : List String) (h : RelDir dir ds = true) (w : World) :
    osMkdirAll dir w = ({ w with fs := (mkdirWalk w.fs w.cwd ds).1 }, (mkdirWalk w.fs w.cwd ds).2) := by
  simp only [RelDir, Bool.and_eq_true, decide_eq_true_eq] at h
  obtain ⟨⟨hne, habs, hcomp⟩, _⟩ := h
  simp [osMkdirAll, hne, startOf, habs, hcomp]

theorem relFile_ne_nil (path : String) (t : List String) (h : RelFile path t = true) : t ≠ [] := by
  simp only [RelFile, Bool.and_eq_true, decide_eq_true_eq] at h
  exact h.1.2.2

theorem stepSpec_file (path str N : String) (t : List String) (ns : List TNode)
    (hrel : RelFile path t = true) (hp : templateParse str = some ns) :
    StepSpec (createFileFromTemplate path str N) [] t
      (templateExecute ns [("ProjectName", N)]) := by
  have key : ∀ w : World,
      ((∀ d, d <+: t.dropLast → w.fs (w.cwd ++ d) = some Node.dir) ∧
        w.fs (w.cwd ++ t) ≠ some Node.dir ∧
        createFileFromTemplate path str N w = Outcome.running
          (written (w.cwd ++ t) (templateExecute ns [("ProjectName", N)]) w)) ∨
      (¬ ((∀ d, d <+: t.dropLast → w.fs (w.cwd ++ d) = some Node.dir) ∧
        w.fs (w.cwd ++ t) ≠ some Node.dir) ∧
        createFileFromTemplate path str N w
          = Outcome.running (printErr ("create file: " ++ path) w)) := by
    intro w
    cases hc : createTarget path w with
    | none =>
      right
      refine ⟨fun h => ?_, createFile_fail path str N w hc⟩
      have := (createTarget_rel path t hrel w (w.cwd ++ t)).2 ⟨rfl, h.1, h.2⟩
      rw [hc] at this
      cases this
    | some f =>
      left
      obtain ⟨hf, hd, hn⟩ := (createTarget_rel path t hrel w f).1 hc
      subst hf
      exact ⟨hd, hn, createFile_ok path str N w _ ns hc hp⟩
  have hneq : ∀ (w : World) (d : List String), w.fs (w.cwd ++ d) = some Node.dir →
      w.fs (w.cwd ++ t) ≠ some Node.dir → w.cwd ++ d ≠ w.cwd ++ t := by
    intro w d h1 h2 he
    rw [he] at h1
    exact h2 h1
  have hdir : ∀ (w : World) (p : Path) (s : String), w.fs p = some Node.dir →
      p ≠ w.cwd ++ t → (written (w.cwd ++ t) s w).fs p = some Node.dir := by
    intro w p s h1 h2
    rcases written_cases (w.cwd ++ t) s w p with h | h | ⟨h, _⟩
    · rw [h, h1]
    · exact absurd h h2
    · rw [h1] at h
      cases h
  constructor
  · intro w
    rcases key w with ⟨_, _, h⟩ | ⟨_, h⟩ <;> rw [h]
    · exact written_cwd _ _ _
    · rfl
  · intro w
    rcases key w with ⟨_, _, h⟩ | ⟨_, h⟩ <;> rw [h]
    · rw [world_running, written_stderr]
    · exact List.prefix_append _ _
  · intro w
    rcases key w with ⟨_, hn, h⟩ | ⟨_, h⟩ <;> rw [h]
    · intro p
      rw [world_running]
      rcases written_cases (w.cwd ++ t) _ w p with hc | hc | ⟨h1, _, _, h4⟩
      · exact Or.inl hc
      · subst hc
        refine Or.inr (Or.inr (Or.inl ⟨hn, ?_, (t, _), List.mem_singleton.2 rfl, rfl⟩))
        rw [written_self]
        rfl
      · refine Or.inr (Or.inr (Or.inr ⟨h1, ?_⟩))
        rw [h4]
        rfl
    · exact Frame.stay _ _ _ _
  · intro w p hfile hne
    rcases key w with ⟨_, _, h⟩ | ⟨_, h⟩ <;> rw [h] at hne
    · rw [world_running] at hne
      rcases written_cases (w.cwd ++ t) _ w p with hc | hc | ⟨_, h2, h3, _⟩
      · exact absurd hc hne
      · exact Or.inl hc
      · exact Or.inr ⟨h2, h3⟩
    · exact absurd rfl hne
  · intro w p hfile
    rcases key w with ⟨_, _, h⟩ | ⟨_, h⟩ <;> rw [h]
    · exact written_links_old _ _ _ _ hfile
    · rfl
  · intro w p hfile
    rcases key w with ⟨_, _, h⟩ | ⟨_, h⟩ <;> rw [h]
    · exact written_links_new _ _ _ _ hfile
    · intro hc
      have : isFile (w.fs p) = true := hc
      rw [hfile] at this
      cases this
  · intro w
    rcases key w with ⟨hd, hn, h⟩ | ⟨_, h⟩ <;> rw [h]
    · intro _ _
      have hroot : w.fs w.cwd = some Node.dir := by simpa using hd [] List.nil_prefix
      rw [world_running]
      refine ⟨written_self _ _ _, fun d hd' => ?_, fun d hd' => ?_,
        fun q hq hf => written_settled _ _ _ q hq hf⟩
      · rw [List.prefix_nil] at hd'
        subst hd'
        exact hdir w _ _ (by simpa using hroot) (hneq w [] (by simpa using hroot) hn)
      · exact hdir w _ _ (hd d hd') (hneq w d (hd d hd') hn)
    · intro _ he
      simp [printErr] at he
  · intro w _ hd hfile hs
    rcases key w with ⟨_, _, h⟩ | ⟨hneg, _⟩
    · rw [h, written_noop _ _ _ hfile hs]
    · exact absurd ⟨hd, by rw [hfile]; simp⟩ hneg
  · intro w hroot _ hpar hn _
    rcases key w with ⟨_, _, h⟩ | ⟨hneg, _⟩
    · rw [h]
      exact ⟨rfl, by rw [world_running, written_stderr]⟩
    · refine absurd ⟨fun d hd => ?_, hn⟩ hneg
      rcases hpar d hd with h' | h'
      · rw [List.prefix_nil] at h'
        subst h'
        simpa using hroot
      · exact h'


theorem dirExt_isFile {fs fs' : FS} (h : DirExt fs fs') (p : Path) :
    isFile (fs' p) = isFile (fs p) := by
  rcases h p with h' | ⟨hn, hd⟩
  · rw [h']
  · rw [hn, hd]
    rfl

theorem stepSpec_dir (dir msg path str N : String) (ds t : List String) (ns : List TNode)
    (hdir : RelDir dir ds = true) (hrel : RelFile path t = true)
    (hp : templateParse str = some ns) :
    StepSpec (createWithDir dir msg path str N) ds t
      (templateExecute ns [("ProjectName", N)]) := by
  have F := stepSpec_file path str N t ns hrel hp
  have hpl : ∀ c ∈ ds, plain c = true := by
    simp only [RelDir, Bool.and_eq_true, List.all_eq_true] at hdir
    exact hdir.2
  have key : ∀ w : World,
      ((mkdirWalk w.fs w.cwd ds).2 = false ∧ createWithDir dir msg path str N w
          = Outcome.exited (printErr msg { w with fs := (mkdirWalk w.fs w.cwd ds).1 })) ∨
      ((mkdirWalk w.fs w.cwd ds).2 = true ∧ createWithDir dir msg path str N w
          = createFileFromTemplate path str N { w with fs := (mkdirWalk w.fs w.cwd ds).1 }) := by
    intro w
    unfold createWithDir
    rw [osMkdirAll_rel dir ds hdir w]
    cases h : (mkdirWalk w.fs w.cwd ds).2 with
    | false => exact Or.inl ⟨rfl, rfl⟩
    | true => exact Or.inr ⟨rfl, rfl⟩
  have hframe : ∀ w : World,
      Frame w.cwd ds.inits [(t, templateExecute ns [("ProjectName", N)])] w.fs
        (mkdirWalk w.fs w.cwd ds).1 := by
    intro w p
    rcases mkdirWalk_plain_frame ds w.fs w.cwd hpl p with h | ⟨h1, h2, d, hd, he⟩
    · exact Or.inl h
    · exact Or.inr (Or.inl ⟨h1, h2, d, (List.mem_inits _ _).2 hd, he⟩)
  have hfile : ∀ (w : World) (p : Path),
      isFile ((mkdirWalk w.fs w.cwd ds).1 p) = isFile (w.fs p) :=
    fun w p => dirExt_isFile (mkdirWalk_dirExt ds w.fs w.cwd) p
  have hsame : ∀ (w : World) (p : Path), isFile (w.fs p) = true →
      (mkdirWalk w.fs w.cwd ds).1 p = w.fs p := by
    intro w p h
    rcases mkdirWalk_dirExt ds w.fs w.cwd p with h' | ⟨hn, _⟩
    · exact h'
    · rw [hn] at h
      cases h
  constructor
  · intro w
    rcases key w with ⟨_, h⟩ | ⟨_, h⟩ <;> rw [h]
    · rfl
    · exact F.cwd_eq { w with fs := (mkdirWalk w.fs w.cwd ds).1 }
  · intro w
    rcases key w with ⟨_, h⟩ | ⟨_, h⟩ <;> rw [h]
    · exact List.prefix_append _ _
    · exact F.stderr_ext { w with fs := (mkdirWalk w.fs w.cwd ds).1 }
  · intro w
    rcases key w with ⟨_, h⟩ | ⟨_, h⟩ <;> rw [h]
    · exact hframe w
    · exact (hframe w).chain ((F.frame _).widen (fun d hd => by
        have : d = [] := by simpa using hd
        subst this
        exact (List.mem_inits _ _).2 List.nil_prefix) (fun e he => he))
  · intro w p hf hne
    rcases key w with ⟨_, h⟩ | ⟨_, h⟩ <;> rw [h] at hne
    · exact absurd (hsame w p hf) hne
    · have h1 := F.touched { w with fs := (mkdirWalk w.fs w.cwd ds).1 } p
        (by rw [← hfile w p] at hf; exact hf)
        (by rw [← hsame w p hf] at hne; exact hne)
      rcases h1 with h1 | ⟨h1, h2⟩
      · exact Or.inl h1
      · exact Or.inr ⟨by rw [← hfile w]; exact h1, h2⟩
  · intro w p hf
    rcases key w with ⟨_, h⟩ | ⟨_, h⟩ <;> rw [h]
    · rfl
    · exact F.links_old { w with fs := (mkdirWalk w.fs w.cwd ds).1 } p
        (by rw [← hfile w p] at hf; exact hf)
  · intro w p hf
    rcases key w with ⟨_, h⟩ | ⟨_, h⟩ <;> rw [h]
    · intro hc
      have : isFile ((mkdirWalk w.fs w.cwd ds).1 p) = true := hc
      rw [hfile w p, hf] at this
      cases this
    · exact F.links_new { w with fs := (mkdirWalk w.fs w.cwd ds).1 } p
        (by rw [← hfile w p] at hf; exact hf)
  · intro w
    rcases key w with ⟨_, h⟩ | ⟨hok, h⟩ <;> rw [h]
    · intro hr
      cases hr
    · intro hr he
      obtain ⟨h1, _, h3, h4⟩ := F.success _ hr he
      refine ⟨h1, fun d hd => ?_, h3, h4⟩
      exact (F.frame _).dirStays _ (mkdirWalk_plain_dirs ds w.fs w.cwd hpl hok d hd)
  · intro w hds hpar hfile' hs
    have hno := mkdirWalk_plain_noop ds w.fs w.cwd hpl hds
    rcases key w with ⟨hbad, _⟩ | ⟨_, h⟩
    · rw [hno] at hbad
      cases hbad
    · rw [h, hno]
      exact F.noop w (fun d hd => by
        rw [List.prefix_nil] at hd
        subst hd
        exact hds [] List.nil_prefix) hpar hfile' hs
  · intro w hroot hfiles hpar hn hnt
    have hok := mkdirWalk_plain_ok ds w.fs w.cwd hpl hroot hfiles
    have hext := mkdirWalk_dirExt ds w.fs w.cwd
    rcases key w with ⟨hbad, _⟩ | ⟨_, h⟩
    · rw [hok] at hbad
      cases hbad
    · rw [h]
      refine F.feasible _ (hext.dirKept _ hroot) (fun d hd c => ?_) (fun d hd => ?_) ?_ ?_
      · rw [List.prefix_nil] at hd
        subst hd
        have := hext.dirKept _ hroot
        simp only [List.append_nil]
        intro hc
        rw [hc] at this
        cases this
      · rcases hpar d hd with h' | h'
        · exact Or.inr (mkdirWalk_plain_dirs ds w.fs w.cwd hpl hok d h')
        · exact Or.inr (hext.dirKept _ h')
      · show (mkdirWalk w.fs w.cwd ds).1 (w.cwd ++ t) ≠ some Node.dir
        rcases mkdirWalk_plain_frame ds w.fs w.cwd hpl (w.cwd ++ t) with h' | ⟨_, _, d, hd, he⟩
        · rw [h']
          exact hn
        · have : t = d := by simpa using he
          subst this
          exact absurd hd hnt
      · rw [List.prefix_nil]
        exact relFile_ne_nil path t hrel

/-! ## Sequences of creator calls -/

theorem andThen_assoc (o : Outcome) (f g : World → Outcome) :
    (o.andThen f).andThen g = o.andThen (fun w => (f w).andThen g) := by
  cases o <;> rfl

theorem andThen_running (o : Outcome) (f : World → Outcome)
    (h : (o.andThen f).isRunning = true) : o = Outcome.running o.world := by
  cases o with
  | running w => rfl
  | exited w => cases h

theorem runItems_cwd : ∀ (l : List Item), (∀ i ∈ l, StepSpec i.S i.ds i.t i.content) →
    ∀ w, (runSteps (itemSteps l) w).world.cwd = w.cwd
  | [], _, w => rfl
  | i :: l, h, w => by
    have hi := h i (List.mem_cons_self _ _)
    have ih := runItems_cwd l (fun j hj => h j (List.mem_cons_of_mem _ hj))
    have h1 := hi.cwd_eq w
    simp only [itemSteps, List.map_cons, runSteps]
    cases ho : i.S w with
    | running w1 =>
      rw [ho] at h1
      simp only [Outcome.andThen]
      exact (ih w1).trans h1
    | exited w1 =>
      rw [ho] at h1
      exact h1

theorem runItems_stderr : ∀ (l : List Item), (∀ i ∈ l, StepSpec i.S i.ds i.t i.content) →
    ∀ w, w.stderr <+: (runSteps (itemSteps l) w).world.stderr
  | [], _, w => List.prefix_refl _
  | i :: l, h, w => by
    have hi := h i (List.mem_cons_self _ _)
    have ih := runItems_stderr l (fun j hj => h j (List.mem_cons_of_mem _ hj))
    have h1 := hi.stderr_ext w
    simp only [itemSteps, List.map_cons, runSteps]
    cases ho : i.S w with
    | running w1 =>
      rw [ho] at h1
      simp only [Outcome.andThen]
      exact h1.trans (ih w1)
    | exited w1 =>
      rw [ho] at h1
      exact h1

theorem runItems_frame : ∀ (l : List Item), (∀ i ∈ l, StepSpec i.S i.ds i.t i.content) →
    ∀ w, Frame w.cwd (itemDirs l) (itemFiles l) w.fs (runSteps (itemSteps l) w).world.fs
  | [], _, w => Frame.stay _ _ _ _
  | i :: l, h, w => by
    have hi := h i (List.mem_cons_self _ _)
    have ih := runItems_frame l (fun j hj => h j (List.mem_cons_of_mem _ hj))
    have h1 : Frame w.cwd (itemDirs (i :: l)) (itemFiles (i :: l)) w.fs (i.S w).world.fs :=
      (hi.frame w).widen (fun d hd => by simp [itemDirs, hd])
        (fun e he => by
          have : e = (i.t, i.content) := by simpa using he
          simp [itemFiles, this])
    have h2 := hi.cwd_eq w
    simp only [itemSteps, List.map_cons, runSteps]
    cases ho : i.S w with
    | running w1 =>
      rw [ho] at h1 h2
      simp only [Outcome.andThen]
      have h3 := ih w1
      simp only [Outcome.world] at h1 h2
      rw [h2] at h3
      exact h1.chain (h3.widen (fun d hd => by
        simp only [itemDirs, List.map_cons, List.flatten_cons, List.mem_append]
        exact Or.inr hd) (fun e he => List.mem_cons_of_mem _ he))
    | exited w1 =>
      rw [ho] at h1
      exact h1

theorem step_apart {S : World → Outcome} {ds t : List String} {content : String}
    (hS : StepSpec S ds t content) (T : List (List String)) (r : Path) (w : World)
    (hA : Apart T r w) : Apart T r (S w).world := by
  intro t1 h1 t2 h2 hne hf'
  by_cases hf : isFile (w.fs (r ++ t1)) = true
  · obtain ⟨a, b⟩ := hA t1 h1 t2 h2 hne hf
    rw [hS.links_old w _ hf]
    refine ⟨a, fun hf2' q hq => ?_⟩
    by_cases hf2 : isFile (w.fs (r ++ t2)) = true
    · rw [hS.links_old w _ hf2]
      exact b hf2 q hq
    · rw [hS.links_new w _ (by simpa using hf2) hf2']
      simp
  · rw [hS.links_new w _ (by simpa using hf) hf']
    exact ⟨by simp, fun _ q hq => by cases hq⟩

/-- A creator call leaves a file of `T` other than its own with its content, under all
its names. -/
theorem step_keeps {S : World → Outcome} {ds t : List String} {content : String}
    (hS : StepSpec S ds t content) (T : List (List String)) (w : World)
    (hA : Apart T w.cwd w) (ht : t ∈ T) (t0 : List String) (h0 : t0 ∈ T) (hne : t0 ≠ t)
    (c0 : String) (hc : w.fs (w.cwd ++ t0) = some (Node.file c0))
    (hs : ∀ q ∈ w.links (w.cwd ++ t0), isFile (w.fs q) = true →
      w.fs q = some (Node.file c0)) :
    (S w).world.fs (w.cwd ++ t0) = some (Node.file c0) ∧
    (∀ q ∈ (S w).world.links (w.cwd ++ t0), isFile ((S w).world.fs q) = true →
      (S w).world.fs q = some (Node.file c0)) := by
  have hf0 : isFile (w.fs (w.cwd ++ t0)) = true := by rw [hc]; rfl
  obtain ⟨a, b⟩ := hA t0 h0 t ht hne hf0
  have hsame : ∀ q, isFile (w.fs q) = true → q ≠ w.cwd ++ t →
      (isFile (w.fs (w.cwd ++ t)) = true → q ∉ w.links (w.cwd ++ t)) →
      (S w).world.fs q = w.fs q := by
    intro q hq h1 h2
    by_contra hc'
    rcases hS.touched w q hq hc' with h | ⟨h, h'⟩
    · exact h1 h
    · exact h2 h h'
  constructor
  · rw [hsame _ hf0 (fun he => hne (List.append_cancel_left he)) (fun hft hin =>
      (hA t ht t0 h0 (Ne.symm hne) hft).1 hin), hc]
  · intro q hq hfq
    rw [hS.links_old w _ hf0] at hq
    by_cases hq0 : isFile (w.fs q) = true
    · rw [hsame q hq0 (fun he => a (he ▸ hq)) (fun hft hin => b hft q hq hin)]
      exact hs q hq hq0
    · exfalso
      rcases (hS.frame w).fileFrom q hfq with h | ⟨e, he, hp⟩
      · exact hq0 h
      · have he' : e = (t, content) := by simpa using he
        subst he'
        exact a (hp ▸ hq)

theorem runItems_apart : ∀ (l : List Item), (∀ i ∈ l, StepSpec i.S i.ds i.t i.content) →
    ∀ (T : List (List String)) (w : World), Apart T w.cwd w →
      Apart T w.cwd (runSteps (itemSteps l) w).world
  | [], _, _, w, h => h
  | i :: l, h, T, w, hA => by
    have hi := h i (List.mem_cons_self _ _)
    have hl : ∀ j ∈ l, StepSpec j.S j.ds j.t j.content :=
      fun j hj => h j (List.mem_cons_of_mem _ hj)
    have h1 := step_apart hi T w.cwd w hA
    have hc := hi.cwd_eq w
    have hstep : runSteps (itemSteps (i :: l)) w = (i.S w).andThen (runSteps (itemSteps l)) := rfl
    rw [hstep]
    cases ho : i.S w with
    | exited w1 =>
      rw [ho] at h1
      exact h1
    | running w1 =>
      rw [ho] at h1 hc
      simp only [andThen_running_eq, world_running] at h1 hc ⊢
      have := runItems_apart l hl T w1 (hc ▸ h1)
      rw [hc] at this
      exact this

theorem runItems_keeps : ∀ (l : List Item), (∀ i ∈ l, StepSpec i.S i.ds i.t i.content) →
    ∀ (T : List (List String)) (w : World), (∀ i ∈ l, i.t ∈ T) → Apart T w.cwd w →
    ∀ (t0 : List String) (c0 : String), t0 ∈ T → t0 ∉ l.map (fun i => i.t) →
      w.fs (w.cwd ++ t0) = some (Node.file c0) →
      (∀ q ∈ w.links (w.cwd ++ t0), isFile (w.fs q) = true → w.fs q = some (Node.file c0)) →
      (runSteps (itemSteps l) w).world.fs (w.cwd ++ t0) = some (Node.file c0) ∧
      (∀ q ∈ (runSteps (itemSteps l) w).world.links (w.cwd ++ t0),
        isFile ((runSteps (itemSteps l) w).world.fs q) = true →
        (runSteps (itemSteps l) w).world.fs q = some (Node.file c0))
  | [], _, _, w, _, _, t0, c0, _, _, hc, hs => ⟨hc, hs⟩
  | i :: l, h, T, w, hT, hA, t0, c0, h0, hn, hc, hs => by
    have hi := h i (List.mem_cons_self _ _)
    have hl : ∀ j ∈ l, StepSpec j.S j.ds j.t j.content :=
      fun j hj => h j (List.mem_cons_of_mem _ hj)
    simp only [List.map_cons, List.mem_cons, not_or] at hn
    have hk := step_keeps hi T w hA (hT i (List.mem_cons_self _ _)) t0 h0 hn.1 c0 hc hs
    have h1 := step_apart hi T w.cwd w hA
    have hcw := hi.cwd_eq w
    have hstep : runSteps (itemSteps (i :: l)) w = (i.S w).andThen (runSteps (itemSteps l)) := rfl
    rw [hstep]
    cases ho : i.S w with
    | exited w1 =>
      rw [ho] at hk
      exact hk
    | running w1 =>
      rw [ho] at hk h1 hcw
      simp only [andThen_running_eq, world_running] at hk h1 hcw ⊢
      have := runItems_keeps l hl T w1 (fun j hj => hT j (List.mem_cons_of_mem _ hj))
        (hcw ▸ h1) t0 c0 h0 hn.2 (by rw [hcw]; exact hk.1) (by rw [hcw]; exact hk.2)
      rw [hcw] at this
      exact this

theorem runItems_success : ∀ (l : List Item), (∀ i ∈ l, StepSpec i.S i.ds i.t i.content) →
    (l.map (fun i => i.t)).Nodup →
    ∀ (T : List (List String)) (w : World), (∀ i ∈ l, i.t ∈ T) → Apart T w.cwd w →
      (runSteps (itemSteps l) w).isRunning = true →
      (runSteps (itemSteps l) w).world.stderr = w.stderr →
      Made l w.cwd (runSteps (itemSteps l) w).world
  | [], _, _, _, w, _, _, _, _ => by
    intro i hi
    cases hi
  | i :: l, h, hnd, T, w, hT, hA, hr, he => by
    have hi := h i (List.mem_cons_self _ _)
    have hl : ∀ j ∈ l, StepSpec j.S j.ds j.t j.content :=
      fun j hj => h j (List.mem_cons_of_mem _ hj)
    simp only [List.map_cons, List.nodup_cons] at hnd
    have hc := hi.cwd_eq w
    have hs1 := hi.stderr_ext w
    have hsx := hi.success w
    have hA1 := step_apart hi T w.cwd w hA
    have hstep : runSteps (itemSteps (i :: l)) w = (i.S w).andThen (runSteps (itemSteps l)) := rfl
    rw [hstep] at hr he ⊢
    cases ho : i.S w with
    | exited w1 =>
      rw [ho] at hr
      cases hr
    | running w1 =>
      rw [ho] at hr he hc hs1 hsx hA1
      simp only [andThen_running_eq, world_running, isRunning_running] at hr he hc hs1 hsx hA1 ⊢
      have hs2 := runItems_stderr l hl w1
      have hfr := runItems_frame l hl w1
      rw [hc] at hfr
      have hse : w1.stderr = w.stderr :=
        (hs1.eq_of_length_le (by rw [he] at hs2; exact hs2.length_le)).symm
      have hT' : ∀ j ∈ l, j.t ∈ T := fun j hj => hT j (List.mem_cons_of_mem _ hj)
      have ih := runItems_success l hl hnd.2 T w1 hT' (hc ▸ hA1) hr (by rw [he, hse])
      obtain ⟨f1, f2, f3, f4⟩ := hsx trivial hse
      have hk := runItems_keeps l hl T w1 hT' (hc ▸ hA1) i.t i.content
        (hT i (List.mem_cons_self _ _)) hnd.1 (by rw [hc]; exact f1) (by rw [hc]; exact f4)
      rw [hc] at hk
      intro j hj
      rcases List.mem_cons.1 hj with rfl | hj
      · exact ⟨hk.1, fun d hd => hfr.dirStays _ (f2 d hd), fun d hd => hfr.dirStays _ (f3 d hd),
          hk.2⟩
      · have := ih j hj
        rw [hc] at this
        exact this

theorem runItems_noop : ∀ (l : List Item), (∀ i ∈ l, StepSpec i.S i.ds i.t i.content) →
    ∀ w, Made l w.cwd w → runSteps (itemSteps l) w = Outcome.running w
  | [], _, w, _ => rfl
  | i :: l, h, w, hm => by
    have hi := h i (List.mem_cons_self _ _)
    obtain ⟨f1, f2, f3, f4⟩ := hm i (List.mem_cons_self _ _)
    simp only [itemSteps, List.map_cons, runSteps]
    rw [hi.noop w f2 f3 f1 f4]
    exact runItems_noop l (fun j hj => h j (List.mem_cons_of_mem _ hj)) w
      (fun j hj => hm j (List.mem_cons_of_mem _ hj))

theorem runItems_feasible (Dall Tall : List (List String)) :
    ∀ (l : List Item) (K : List (List String)) (w : World),
      (∀ i ∈ l, StepSpec i.S i.ds i.t i.content) →
      feasibleCheck Dall Tall K (l.map (fun i => (i.ds, i.t))) = true →
      Known Dall Tall K w.cwd w.fs →
      (runSteps (itemSteps l) w).isRunning = true ∧
        (runSteps (itemSteps l) w).world.stderr = w.stderr
  | [], _, w, _, _, _ => ⟨rfl, rfl⟩
  | i :: l, K, w, h, hchk, hk => by
    have hi := h i (List.mem_cons_self _ _)
    have hl : ∀ j ∈ l, StepSpec j.S j.ds j.t j.content :=
      fun j hj => h j (List.mem_cons_of_mem _ hj)
    simp only [List.map_cons, feasibleCheck, Bool.and_eq_true, List.all_eq_true,
      decide_eq_true_eq, List.mem_inits] at hchk
    obtain ⟨⟨⟨⟨c1, c2⟩, c3⟩, c4⟩, c5⟩ := hchk
    obtain ⟨k1, k2, k3, k4⟩ := hk
    have hfe := hi.feasible w k1
      (fun d hd c hc => (c1 d hd).1 (k4 d c hc))
      (fun d hd => by
        rcases c2 d hd with h' | h' | h'
        · exact Or.inl h'
        · exact Or.inr (k2 d h')
        · subst h'
          exact Or.inr (by simpa using k1))
      (fun hc => c3 (k3 _ hc))
      (fun hc => c3 (c1 _ hc).2)
    have hc := hi.cwd_eq w
    have hfr := hi.frame w
    have hsx := hi.success w hfe.1 hfe.2
    have hstep : runSteps (itemSteps (i :: l)) w = (i.S w).andThen (runSteps (itemSteps l)) := rfl
    rw [hstep]
    cases ho : i.S w with
    | exited w1 =>
      rw [ho] at hfe
      cases hfe.1
    | running w1 =>
      rw [ho] at hfe hc hfr hsx
      simp only [andThen_running_eq, world_running] at hfe hc hfr hsx ⊢
      obtain ⟨f1, f2, f3, _⟩ := hsx
      have hk1 : Known Dall Tall (K ++ i.ds.inits ++ i.t.dropLast.inits) w1.cwd w1.fs := by
        rw [hc]
        refine ⟨hfr.dirStays _ k1, fun d hd => ?_, fun d hd => ?_, fun d c hd => ?_⟩
        · simp only [List.mem_append, List.mem_inits] at hd
          rcases hd with (hd | hd) | hd
          · exact hfr.dirStays _ (k2 d hd)
          · exact f2 d hd
          · exact f3 d hd
        · rcases hfr (w.cwd ++ d) with h' | ⟨_, _, d', hd', he⟩ | ⟨_, hf, _⟩ | ⟨_, hf⟩
          · exact k3 d (h' ▸ hd)
          · have : d = d' := by simpa using he
            subst this
            exact (c1 d ((List.mem_inits _ _).1 hd')).2
          · rw [hd] at hf
            cases hf
          · rw [hd] at hf
            cases hf
        · rcases hfr (w.cwd ++ d) with h' | ⟨_, hdir, _⟩ | ⟨_, _, e, he, hp⟩ | ⟨hf, _⟩
          · exact k4 d c (h' ▸ hd)
          · rw [hdir] at hd
            cases hd
          · have he' : e = (i.t, i.content) := by simpa using he
            subst he'
            have : d = i.t := by simpa using hp
            subst this
            exact c4
          · obtain ⟨c', hc'⟩ := (isFile_iff _).1 hf
            exact k4 d c' hc'
      have ih := runItems_feasible Dall Tall l _ w1 hl c5 hk1
      exact ⟨ih.1, ih.2.trans hfe.2⟩

/-! ## The sequence of `createGolangProject` -/

theorem checkBody_golang : golangBodies.all checkBody = true := by decide!

theorem checkBody_of_mem (str : String) (h : str ∈ golangBodies) : checkBody str = true :=
  List.all_eq_true.1 checkBody_golang str h

theorem spec_file (path str N : String) (t : List String) (hb : str ∈ golangBodies)
    (hrel : RelFile path t = true) :
    StepSpec (createFileFromTemplate path str N) [] t (substitute str N) := by
  obtain ⟨ns, hp, he⟩ := render_of_checkBody str N (checkBody_of_mem str hb)
  rw [← he]
  exact stepSpec_file path str N t ns hrel hp

theorem spec_dir (dir msg path str N : String) (ds t : List String) (hb : str ∈ golangBodies)
    (hdir : RelDir dir ds = true) (hrel : RelFile path t = true) :
    StepSpec (createWithDir dir msg path str N) ds t (substitute str N) := by
  obtain ⟨ns, hp, he⟩ := render_of_checkBody str N (checkBody_of_mem str hb)
  rw [← he]
  exact stepSpec_dir dir msg path str N ds t ns hdir hrel hp

theorem spec_createGOMODFile (N : String) :
    StepSpec (createGOMODFile N) [] ["go.mod"] (substitute gomodStr N) :=
  spec_file "./go.mod" gomodStr N ["go.mod"] (by simp [golangBodies]) (by decide!)

theorem spec_createMainGoFile (N : String) :
    StepSpec (createMainGoFile N) [] ["main.go"] (substitute mainGoStr N) :=
  spec_file "./main.go" mainGoStr N ["main.go"] (by simp [golangBodies]) (by decide!)

theorem spec_createServerGoFile (N : String) :
    StepSpec (createServerGoFile N) ["server"] ["server", "server.go"] (substitute serverGoStr N) :=
  spec_dir "server" "Unable to create server directory" "./server/server.go" serverGoStr N ["server"] ["server", "server.go"]
    (by simp [golangBodies]) (by decide!) (by decide!)

theorem spec_createDatabaseGoFile (N : String) :
    StepSpec (createDatabaseGoFile N) ["database"] ["database", "database.go"] (substitute databaseGoStr N) :=
  spec_dir "database" "unable to create database directory" "./database/database.go" databaseGoStr N ["database"] ["database", "database.go"]
    (by simp [golangBodies]) (by decide!) (by decide!)

theorem spec_createRouteGoFile (N : String) :
    StepSpec (createRouteGoFile N) ["router"] ["router", "router.go"] (substitute routeGoStr N) :=
  spec_dir "router" "unable to create router directory" "./router/router.go" routeGoStr N ["router"] ["router", "router.go"]
    (by simp [golangBodies]) (by decide!) (by decide!)

theorem spec_createHandlersGoFile (N : String) :
    StepSpec (createHandlersGoFile N) ["handler"] ["handler", "handler.go"] (substitute handlersGoStr N) :=
  spec_dir "handler" "unable to create handler directory" "./handler/handler.go" handlersGoStr N ["handler"] ["handler", "handler.go"]
    (by simp [golangBodies]) (by decide!) (by decide!)

theorem spec_createRepositoryGoFile (N : String) :
    StepSpec (createRepositoryGoFile N) ["repository"] ["repository", "repository.go"] (substitute repositoryGoStr N) :=
  spec_dir "repository" "unable to create repository directory" "./repository/repository.go" repositoryGoStr N ["repository"] ["repository", "repository.go"]
    (by simp [golangBodies]) (by decide!) (by decide!)

theorem spec_createModelGoFile (N : String) :
    StepSpec (createModelGoFile N) ["model"] ["model", "response.go"] (substitute modelGoStr N) :=
  spec_dir "model" "unable to create model directory" "./model/response.go" modelGoStr N ["model"] ["model", "response.go"]
    (by simp [golangBodies]) (by decide!) (by decide!)

theorem spec_createAPIGoFile (N : String) :
    StepSpec (createAPIGoFile N) ["utils", "api"] ["utils", "api", "error_message.go"] (substitute apiGoStr N) :=
  spec_dir "utils/api" "unable to create utils/api directory" "./utils/api/error_message.go" apiGoStr N ["utils", "api"] ["utils", "api", "error_message.go"]
    (by simp [golangBodies]) (by decide!) (by decide!)

theorem spec_createLoggyGoFile (N : String) :
    StepSpec (createLoggyGoFile N) ["utils", "loggy"] ["utils", "loggy", "loggy.go"] (substitute loggyGoStr N) :=
  spec_dir "utils/loggy" "unable to create utils/loggy directory" "./utils/loggy/loggy.go" loggyGoStr N ["utils", "loggy"] ["utils", "loggy", "loggy.go"]
    (by simp [golangBodies]) (by decide!) (by decide!)

theorem spec_createEnvGoFile (N : String) :
    StepSpec (createEnvGoFile N) [] ["utils", "environment.go"] (substitute envGoStr N) :=
  spec_file "./utils/environment.go" envGoStr N ["utils", "environment.go"] (by simp [golangBodies]) (by decide!)

theorem golangItems_spec (N : String) :
    ∀ i ∈ golangItems N, StepSpec i.S i.ds i.t i.content := by
  intro i hi
  simp only [golangItems, List.mem_cons, List.mem_singleton, List.not_mem_nil, or_false] at hi
  rcases hi with rfl | rfl | rfl | rfl | rfl | rfl | rfl | rfl | rfl | rfl | rfl
  · exact spec_createGOMODFile N
  · exact spec_createMainGoFile N
  · exact spec_createServerGoFile N
  · exact spec_createDatabaseGoFile N
  · exact spec_createRouteGoFile N
  · exact spec_createHandlersGoFile N
  · exact spec_createRepositoryGoFile N
  · exact spec_createModelGoFile N
  · exact spec_createAPIGoFile N
  · exact spec_createLoggyGoFile N
  · exact spec_createEnvGoFile N

theorem andThen_return (o : Outcome) : (o.andThen fun x => Outcome.running x) = o := by
  cases o <;> rfl

theorem golangSequence_eq (N : String) (w : World) :
    golangSequence N w = runSteps (itemSteps (golangItems N)) w := by
  simp only [golangSequence, andThen_assoc, golangItems, itemSteps, List.map_cons, List.map_nil,
    runSteps, andThen_return]

theorem golangSteps_eq (N : String) : golangSteps N = itemSteps (golangItems N) := rfl

theorem golangItems_files (N : String) :
    itemFiles (golangItems N) = golangFiles.map (fun e => (e.1, substitute e.2 N)) := rfl

theorem golangItems_targets (N : String) :
    (golangItems N).map (fun i => i.t) = golangFiles.map (fun e => e.1) := rfl

theorem golangFiles_nodup : (golangFiles.map (fun e => e.1)).Nodup := by decide


theorem walkDirs_result_dir (fs : FS) : ∀ (cs : List String) (cur p : Path),
    walkDirs fs cur cs = some p → fs p = some Node.dir
  | [], cur, p, h => by
    have hc := walkDirs_dir fs _ _ _ h
    simp only [walkDirs, hc, if_true, Option.some.injEq] at h
    exact h ▸ hc
  | c :: cs, cur, p, h => by
    have hc := walkDirs_dir fs _ _ _ h
    rw [walkDirs, if_pos hc] at h
    exact walkDirs_result_dir fs cs _ p h

theorem startOf_eq (fs : FS) (cwd : Path) (err : List String) (l : Path → List Path)
    (w : World) (N : String) (h : cwd = w.cwd) : startOf ⟨fs, cwd, err, l⟩ N = startOf w N := by
  subst h
  rfl

/-- The branches of `createGolangProject`. -/
theorem createGolangProject_eq (N : String) (w : World) :
    createGolangProject N w =
      if N = "" then Outcome.exited (printErr "Unable to create directory" w)
      else if (mkdirWalk w.fs (startOf w N) (components N)).2 = true then
        match walkDirs (mkdirWalk w.fs (startOf w N) (components N)).1 (startOf w N)
            (components N) with
        | none => Outcome.exited (printErr "Unable to change directory"
            ⟨(mkdirWalk w.fs (startOf w N) (components N)).1, w.cwd, w.stderr, w.links⟩)
        | some r => golangSequence N
            ⟨(mkdirWalk w.fs (startOf w N) (components N)).1, r, w.stderr, w.links⟩
      else Outcome.exited (printErr "Unable to create directory"
        ⟨(mkdirWalk w.fs (startOf w N) (components N)).1, w.cwd, w.stderr, w.links⟩) := by
  unfold createGolangProject osMkdirAll
  by_cases hN : N = ""
  · simp [hN, logFatal]
  · simp only [hN, if_false]
    generalize mkdirWalk w.fs (startOf w N) (components N) = mk
    obtain ⟨fs1, b⟩ := mk
    cases b with
    | false => simp [logFatal]
    | true =>
      simp only [osChdir, hN, if_false, if_true, startOf_eq fs1 w.cwd w.stderr w.links w N rfl]
      cases walkDirs fs1 (startOf w N) (components N) <;> simp [logFatal]

/-- A run of `createGolangProject` that returns made the root, changed into it and ran the
eleven creators there. -/
theorem createGolangProject_decomp (N : String) (w : World)
    (h : (createGolangProject N w).isRunning = true) :
    ∃ r, N ≠ "" ∧ (mkdirWalk w.fs (startOf w N) (components N)).2 = true ∧
      walkDirs (mkdirWalk w.fs (startOf w N) (components N)).1 (startOf w N) (components N)
        = some r ∧
      createGolangProject N w = golangSequence N
        ⟨(mkdirWalk w.fs (startOf w N) (components N)).1, r, w.stderr, w.links⟩ := by
  rw [createGolangProject_eq] at h ⊢
  by_cases hN : N = ""
  · simp [hN] at h
  · by_cases hmk : (mkdirWalk w.fs (startOf w N) (components N)).2 = true
    · rcases Option.eq_none_or_eq_some (walkDirs (mkdirWalk w.fs (startOf w N)
          (components N)).1 (startOf w N) (components N)) with hcd | ⟨r, hcd⟩
      · simp [hN, hmk, hcd] at h
      · exact ⟨r, hN, hmk, hcd, by simp [hN, hmk, hcd]⟩
    · simp [hN, hmk] at h

/-- A world that holds everything a successful run makes is left as it is by a run from
the starting directory. -/
theorem createGolangProject_rerun (N : String) (w w2 : World) (hN : N ≠ "")
    (hmk : (mkdirWalk w.fs (startOf w N) (components N)).2 = true)
    (hcd : walkDirs (mkdirWalk w.fs (startOf w N) (components N)).1 (startOf w N)
      (components N) = some w2.cwd)
    (hdirs : ∀ p, (mkdirWalk w.fs (startOf w N) (components N)).1 p = some Node.dir →
      w2.fs p = some Node.dir)
    (hmade : Made (golangItems N) w2.cwd w2) :
    createGolangProject N { w2 with cwd := w.cwd } = Outcome.running w2 := by
  have h1 := mkdirWalk_replay w2.fs (components N) w.fs (startOf w N) hmk hdirs
  have h2 := walkDirs_mono _ w2.fs hdirs (components N) (startOf w N) w2.cwd hcd
  have h3 := runItems_noop (golangItems N) (golangItems_spec N) w2 hmade
  rw [← golangSequence_eq] at h3
  rw [createGolangProject_eq]
  have e1 : startOf { w2 with cwd := w.cwd } N = startOf w N := rfl
  simp only [hN, if_false, e1, h1, h2, if_true]
  exact h3

/-! ## The claims -/

/-- C1 (the code departs from the claim): with `go.mod` a directory of the project root,
`os.Create` fails for the first entry, `createFileFromTemplate` logs the failure and
returns, and the later entries are still processed: the run returns with that one line
on standard error, `main.go` is written, and `server/` and `server/server.go` are created.
The sibling failure does stop the run: with a regular file `server` in the root,
`os.MkdirAll` fails in `createServerGoFile`, the process exits there and the directory
`database` of the next entry is not made. -/
theorem createGolangProject_goes_on_after_create_failure :
    createTarget "./go.mod" { blockedWorld with cwd := ["demo"] } = none ∧
    (createGolangProject "demo" blockedWorld).isRunning = true ∧
    (createGolangProject "demo" blockedWorld).world.stderr = ["create file: ./go.mod"] ∧
    (createGolangProject "demo" blockedWorld).world.fs ["demo", "go.mod"] = some Node.dir ∧
    blockedWorld.fs ["demo", "main.go"] = none ∧
    (createGolangProject "demo" blockedWorld).world.fs ["demo", "main.go"]
      = some (Node.file mainGoStr) ∧
    blockedWorld.fs ["demo", "server"] = none ∧
    (createGolangProject "demo" blockedWorld).world.fs ["demo", "server"] = some Node.dir ∧
    (createGolangProject "demo" blockedWorld).world.fs ["demo", "server", "server.go"]
      = some (Node.file (substitute serverGoStr "demo")) ∧
    (createGolangProject "demo" fileInTheWayWorld).isRunning = false ∧
    (createGolangProject "demo" fileInTheWayWorld).world.stderr
      = ["Unable to create server directory"] ∧
    (createGolangProject "demo" fileInTheWayWorld).world.fs ["demo", "database"] = none := by
  decide!


theorem checkReferencing_golang : referencingBodies.all checkReferencing = true := by decide!

theorem checkSolid_golang : golangBodies.all checkSolid = true := by decide!

theorem substitute_ne_empty (str N : String) (h : str ∈ golangBodies) : substitute str N ≠ "" := by
  obtain ⟨ns, hp, he⟩ := render_of_checkBody str N (checkBody_of_mem str h)
  have hs := List.all_eq_true.1 checkSolid_golang str h
  simp only [checkSolid, hp] at hs
  rw [← he]
  intro hc
  have := congrArg String.data hc
  exact execNodes_ne_nil _ ns hs this

theorem createFile_written (path str N : String) (w : World) (f : Path) (ns : List TNode)
    (hf : createTarget path w = some f) (hp : templateParse str = some ns) :
    (createFileFromTemplate path str N w).world.fs f
      = some (Node.file (templateExecute ns [("ProjectName", N)])) := by
  rw [createFile_ok path str N w f ns hf hp, world_running, written_self]

/-- C3: for each of the eleven template bodies and every project name, when the file can be
created `createFileFromTemplate` returns and the file holds the body with each occurrence
of the placeholder token replaced by the name and all other text unchanged; for the name
`demo` the content of `go.mod` begins with the line `module demo`. -/
theorem createFileFromTemplate_writes_substitution (N str path : String) (w : World) (f : Path)
    (hstr : str ∈ golangBodies) (hf : createTarget path w = some f) :
    (createFileFromTemplate path str N w).isRunning = true ∧
    (createFileFromTemplate path str N w).world.fs f = some (Node.file (substitute str N)) ∧
    (str = gomodStr → N = "demo" → "module demo\n".data <+: (substitute str N).data) := by
  obtain ⟨ns, hp, he⟩ := render_of_checkBody str N (checkBody_of_mem str hstr)
  refine ⟨?_, ?_, ?_⟩
  · rw [createFile_ok path str N w f ns hf hp]
    rfl
  · rw [createFile_written path str N w f ns hf hp, he]
  · rintro rfl rfl
    decide!

/-- C3 at an input: `go.mod` written for the name `demo` in a new project directory. -/
theorem createFileFromTemplate_writes_substitution_witness :
    gomodStr ∈ golangBodies ∧ createTarget "./go.mod" freshRoot = some ["demo", "go.mod"] ∧
    (createFileFromTemplate "./go.mod" gomodStr "demo" freshRoot).world.fs ["demo", "go.mod"]
      = some (Node.file (substitute gomodStr "demo")) ∧
    "module demo\n".data <+: (substitute gomodStr "demo").data :=
  have hb : gomodStr ∈ golangBodies := by simp [golangBodies]
  have hf : createTarget "./go.mod" freshRoot = some ["demo", "go.mod"] := by decide!
  ⟨hb, hf,
    (createFileFromTemplate_writes_substitution "demo" gomodStr "./go.mod" freshRoot
      ["demo", "go.mod"] hb hf).2.1,
    (createFileFromTemplate_writes_substitution "demo" gomodStr "./go.mod" freshRoot
      ["demo", "go.mod"] hb hf).2.2 rfl rfl⟩

/-- C8: for every project name and every template body without the left delimiter, when the
file can be created `createFileFromTemplate` returns and the file holds the body exactly;
the `main.go`, model, API-constants, logging and environment bodies have no left delimiter. -/
theorem createFileFromTemplate_identity_without_delimiter (N str path : String) (w : World)
    (f : Path) (hstr : ¬ "\x7b\x7b".data <:+: str.data) (hf : createTarget path w = some f) :
    (createFileFromTemplate path str N w).isRunning = true ∧
    (createFileFromTemplate path str N w).world.fs f = some (Node.file str) ∧
    ∀ s ∈ [mainGoStr, modelGoStr, apiGoStr, loggyGoStr, envGoStr],
      ¬ "\x7b\x7b".data <:+: s.data := by
  have hp := templateParse_plain str (not_hasDouble_of_absent _ _ hstr)
  refine ⟨?_, ?_, ?_⟩
  · rw [createFile_ok path str N w f _ hf hp]
    rfl
  · rw [createFile_written path str N w f _ hf hp, templateExecute_plain]
  · intro s hs
    have hd : [mainGoStr, modelGoStr, apiGoStr, loggyGoStr, envGoStr].all
        (fun s => !hasDouble '\x7b' s.data) = true := by decide!
    have := List.all_eq_true.1 hd s hs
    intro hi
    rw [(hasDouble_iff_occurs '\x7b' s.data).2 hi] at this
    cases this

theorem mainGoStr_no_delimiter : ¬ "\x7b\x7b".data <:+: mainGoStr.data := by
  intro hi
  have hd : hasDouble '\x7b' mainGoStr.data = false := by decide!
  rw [(hasDouble_iff_occurs '\x7b' mainGoStr.data).2 hi] at hd
  cases hd

/-- C8 at an input: `main.go` written in a new project directory. -/
theorem createFileFromTemplate_identity_without_delimiter_witness :
    ¬ "\x7b\x7b".data <:+: mainGoStr.data ∧
    createTarget "./main.go" freshRoot = some ["demo", "main.go"] ∧
    (createFileFromTemplate "./main.go" mainGoStr "demo" freshRoot).world.fs
      ["demo", "main.go"] = some (Node.file mainGoStr) :=
  have hf : createTarget "./main.go" freshRoot = some ["demo", "main.go"] := by decide!
  ⟨mainGoStr_no_delimiter, hf,
    (createFileFromTemplate_identity_without_delimiter "demo" mainGoStr "./main.go"
      freshRoot ["demo", "main.go"] mainGoStr_no_delimiter hf).2.1⟩


theorem gomodStr_nodes : templateParse gomodStr = some
    [TNode.text "module ".data, TNode.field "ProjectName".data,
      TNode.text (gomodStr.data.drop 25)] := by
  decide!

/-- C10: the content written to `main.go` does not depend on the project name: the calls of
`createMainGoFile` for any two names are the same, the file holds the fixed body, which
imports `vehicle_management_service/server` and `vehicle_management_service/utils`, while
the `go.mod` written for the name begins with `module` followed by the name. -/
theorem createMainGoFile_independent_of_name (N1 N2 : String) (w : World) (f g : Path)
    (hf : createTarget "./main.go" w = some f) (hg : createTarget "./go.mod" w = some g) :
    createMainGoFile N1 w = createMainGoFile N2 w ∧
    (createMainGoFile N1 w).world.fs f = some (Node.file mainGoStr) ∧
    "\"vehicle_management_service/server\"".data <:+: mainGoStr.data ∧
    "\"vehicle_management_service/utils\"".data <:+: mainGoStr.data ∧
    ∃ c, (createGOMODFile N1 w).world.fs g = some (Node.file c) ∧
      "module ".data ++ N1.data <+: c.data := by
  have hp := templateParse_plain mainGoStr (not_hasDouble_of_absent _ _ mainGoStr_no_delimiter)
  refine ⟨?_, ?_, by decide!, by decide!, ?_⟩
  · unfold createMainGoFile
    rw [createFile_ok _ _ N1 w f _ hf hp, createFile_ok _ _ N2 w f _ hf hp]
    simp only [templateExecute_plain]
  · unfold createMainGoFile
    rw [createFile_written _ _ N1 w f _ hf hp, templateExecute_plain]
  · refine ⟨_, createFile_written _ _ N1 w g _ hg gomodStr_nodes, ?_⟩
    simp only [templateExecute, execNodes, evalField_projectName]
    rw [← List.append_assoc]
    exact List.prefix_append _ _

/-- C10 at an input: `main.go` for the names `demo` and `shop` in a new project directory. -/
theorem createMainGoFile_independent_of_name_witness :
    createTarget "./main.go" freshRoot = some ["demo", "main.go"] ∧
    createTarget "./go.mod" freshRoot = some ["demo", "go.mod"] ∧
    createMainGoFile "demo" freshRoot = createMainGoFile "shop" freshRoot ∧
    (createMainGoFile "demo" freshRoot).world.fs ["demo", "main.go"] = some (Node.file mainGoStr) :=
  have hf : createTarget "./main.go" freshRoot = some ["demo", "main.go"] := by decide!
  have hg : createTarget "./go.mod" freshRoot = some ["demo", "go.mod"] := by decide!
  ⟨hf, hg,
    (createMainGoFile_independent_of_name "demo" "shop" freshRoot ["demo", "main.go"]
      ["demo", "go.mod"] hf hg).1,
    (createMainGoFile_independent_of_name "demo" "shop" freshRoot ["demo", "main.go"]
      ["demo", "go.mod"] hf hg).2.1⟩

theorem length_le_utf8ByteSize (s : String) : s.length ≤ s.utf8ByteSize := by
  have key : ∀ l : List Char, l.length ≤ String.utf8ByteSize.go l := by
    intro l
    induction l with
    | nil => simp [String.utf8ByteSize.go]
    | cons c cs ih =>
      have := Char.utf8Size_pos c
      simp only [String.utf8ByteSize.go, List.length_cons]
      omega
  exact key s.data

/-- C7, the claim refuted at an input: the one-character string `é` is two bytes long, and
the validator accepts it although it is neither empty nor two characters long. -/
theorem validate_accepts_one_character_of_two_bytes :
    validate "é" = none ∧ "é" ≠ "" ∧ "é".length = 1 ∧ ¬ 2 ≤ "é".length := by
  decide

/-- C7 as amended: the validator accepts a string exactly when it is empty or at least two
bytes long (Go `len`); so every string of at least two characters is accepted, and the
strings rejected are those of a single one-byte character. -/
theorem validate_accepts_iff (s : String) :
    (validate s = none ↔ s = "" ∨ 2 ≤ s.utf8ByteSize) ∧
    (s = "" ∨ 2 ≤ s.length → validate s = none) ∧
    (validate s ≠ none ↔ s.utf8ByteSize = 1) := by
  have hlen := length_le_utf8ByteSize s
  have hempty : s = "" ↔ s.utf8ByteSize = 0 := by
    constructor
    · rintro rfl
      rfl
    · intro h
      have : s.length = 0 := by omega
      exact String.ext (List.length_eq_zero.1 this)
  unfold validate
  by_cases h : s ≠ "" ∧ s.utf8ByteSize < 2
  · obtain ⟨h1, h2⟩ := h
    have h0 : s.utf8ByteSize ≠ 0 := mt hempty.2 h1
    rw [if_pos ⟨h1, h2⟩]
    refine ⟨⟨fun hc => (by cases hc), ?_⟩, ?_, ⟨fun _ => (by omega), fun _ hc => (by cases hc)⟩⟩
    · rintro (h' | h')
      · exact absurd h' h1
      · omega
    · rintro (h' | h')
      · exact absurd h' h1
      · omega
  · rw [if_neg h]
    have h3 : s = "" ∨ 2 ≤ s.utf8ByteSize := by
      by_cases hs : s = ""
      · exact Or.inl hs
      · right
        have : ¬ s.utf8ByteSize < 2 := fun hc => h ⟨hs, hc⟩
        omega
    refine ⟨⟨fun _ => h3, fun _ => rfl⟩, fun _ => rfl, ⟨fun hc => absurd rfl hc, fun h1 => ?_⟩⟩
    rcases h3 with h' | h'
    · have := hempty.1 h'
      omega
    · omega

/-- C6: for every project name `createFlutterProject` returns having only printed the name:
the directory tree and the working directory are unchanged, also through the
`Dart(Flutter)` branch of the `switch` in `initCmd.Run`. -/
theorem createFlutterProject_leaves_tree (N : String) (w : World) :
    (createFlutterProject N w).isRunning = true ∧
    (createFlutterProject N w).world.fs = w.fs ∧
    (createFlutterProject N w).world.cwd = w.cwd ∧
    (createFlutterProject N w).world.stderr = w.stderr ++ [N] ∧
    (initRun "Dart(Flutter)" N w).isRunning = true ∧
    (initRun "Dart(Flutter)" N w).world.fs = w.fs ∧
    (initRun "Dart(Flutter)" N w).world.cwd = w.cwd := by
  have h1 : ("Dart(Flutter)" : String) ≠ "Golang" := by decide
  simp [createFlutterProject, initRun, printErr, h1]

/-- C4, the claim refuted at an input: the two-character name made of two left braces is a
valid project name, and the `go.mod` rendered for it holds the left delimiter. -/
theorem rendered_go_mod_holds_delimiter_of_name :
    2 ≤ "\x7b\x7b".length ∧ validate "\x7b\x7b" = none ∧
    createTarget "./go.mod" freshRoot = some ["demo", "go.mod"] ∧
    ∃ c, (createGOMODFile "\x7b\x7b" freshRoot).world.fs ["demo", "go.mod"]
        = some (Node.file c) ∧ "\x7b\x7b".data <:+: c.data := by
  refine ⟨by decide, by decide, by decide!, substitute gomodStr "\x7b\x7b", by decide!, ?_⟩
  exact (hasDouble_iff_occurs '\x7b' _).1 (by decide!)

/-- C4 as amended: for every project name and each of the six bodies that reference the
placeholder, the file written holds the name as a substring, and it holds the left (right)
delimiter only if the name itself does: for a name without `\x7b\x7b` and `\x7d\x7d` no
placeholder syntax is left. -/
theorem createFileFromTemplate_referencing (N str path : String) (w : World) (f : Path)
    (hstr : str ∈ referencingBodies) (hf : createTarget path w = some f) :
    ∃ c, (createFileFromTemplate path str N w).world.fs f = some (Node.file c) ∧
      N.data <:+: c.data ∧
      (¬ "\x7b\x7b".data <:+: N.data → ¬ "\x7b\x7b".data <:+: c.data) ∧
      (¬ "\x7d\x7d".data <:+: N.data → ¬ "\x7d\x7d".data <:+: c.data) := by
  have hchk := List.all_eq_true.1 checkReferencing_golang str hstr
  unfold checkReferencing at hchk
  cases hp : templateParse str with
  | none => simp [hp] at hchk
  | some ns =>
    simp only [hp, Bool.and_eq_true] at hchk
    obtain ⟨⟨h1, h2⟩, h3⟩ := hchk
    refine ⟨_, createFile_written path str N w f ns hf hp, name_occurs_execNodes N ns h1, ?_, ?_⟩
    · intro hN hc
      have hv := hasDouble_evalField '\x7b' N (not_hasDouble_of_absent _ _ hN) (by decide)
      have h0 := (hasDouble_execNodes '\x7b' _ hv ns h2).1
      have h4 : hasDouble '\x7b' (execNodes [("ProjectName", N)] ns) = true :=
        (hasDouble_iff_occurs '\x7b' _).2 hc
      rw [h0] at h4
      cases h4
    · intro hN hc
      have hv := hasDouble_evalField '\x7d' N (not_hasDouble_of_absent _ _ hN) (by decide)
      have h0 := (hasDouble_execNodes '\x7d' _ hv ns h3).1
      have h4 : hasDouble '\x7d' (execNodes [("ProjectName", N)] ns) = true :=
        (hasDouble_iff_occurs '\x7d' _).2 hc
      rw [h0] at h4
      cases h4

theorem demo_no_delimiters :
    ¬ "\x7b\x7b".data <:+: "demo".data ∧ ¬ "\x7d\x7d".data <:+: "demo".data := by
  constructor <;> intro hi
  · have hd : hasDouble '\x7b' "demo".data = false := by decide
    rw [(hasDouble_iff_occurs '\x7b' _).2 hi] at hd
    cases hd
  · have hd : hasDouble '\x7d' "demo".data = false := by decide
    rw [(hasDouble_iff_occurs '\x7d' _).2 hi] at hd
    cases hd

/-- C4 as amended, at an input: `go.mod` written for the name `demo`. -/
theorem createFileFromTemplate_referencing_witness :
    gomodStr ∈ referencingBodies ∧
    createTarget "./go.mod" freshRoot = some ["demo", "go.mod"] ∧
    ∃ c, (createFileFromTemplate "./go.mod" gomodStr "demo" freshRoot).world.fs
        ["demo", "go.mod"] = some (Node.file c) ∧
      "demo".data <:+: c.data ∧ ¬ "\x7b\x7b".data <:+: c.data ∧ ¬ "\x7d\x7d".data <:+: c.data :=
  have hb : gomodStr ∈ referencingBodies := by simp [referencingBodies]
  have hf : createTarget "./go.mod" freshRoot = some ["demo", "go.mod"] := by decide!
  ⟨hb, hf,
    (createFileFromTemplate_referencing "demo" gomodStr "./go.mod" freshRoot
      ["demo", "go.mod"] hb hf).imp
      (fun _ h => ⟨h.1, h.2.1, h.2.2.1 demo_no_delimiters.1, h.2.2.2 demo_no_delimiters.2⟩)⟩


theorem golangFiles_bodies : golangFiles.map (fun e => e.2) = golangBodies := rfl

theorem made_files (N : String) (r : Path) (w : World) (h : Made (golangItems N) r w)
    (e : List String × String) (he : e ∈ golangFiles) :
    w.fs (r ++ e.1) = some (Node.file (substitute e.2 N)) ∧
      ∀ d, d <+: e.1.dropLast → w.fs (r ++ d) = some Node.dir := by
  have hm : (e.1, substitute e.2 N) ∈ itemFiles (golangItems N) := by
    rw [golangItems_files]
    exact List.mem_map.2 ⟨e, he, rfl⟩
  obtain ⟨i, hi, hie⟩ := List.mem_map.1 hm
  simp only [Prod.mk.injEq] at hie
  obtain ⟨f1, _, f3, _⟩ := h i hi
  rw [← hie.1, ← hie.2]
  exact ⟨f1, f3⟩

theorem golangItems_mem_targets (N : String) :
    ∀ i ∈ golangItems N, i.t ∈ golangFiles.map (fun e => e.1) := by
  intro i hi
  rw [← golangItems_targets N]
  exact List.mem_map.2 ⟨i, hi, rfl⟩

theorem apart_of_no_files (T : List (List String)) (r : Path) (w : World)
    (h : ∀ t ∈ T, isFile (w.fs (r ++ t)) = false) : Apart T r w := by
  intro t ht _ _ _ hf
  rw [h t ht] at hf
  cases hf

theorem apart_mkdir (T : List (List String)) (r : Path) (w : World) (fs1 : FS)
    (hext : DirExt w.fs fs1) (h : Apart T r w) (c : Path) :
    Apart T r ⟨fs1, c, w.stderr, w.links⟩ := by
  intro t ht t' ht' hne hf
  have hf' : isFile (w.fs (r ++ t)) = true := by
    rw [← dirExt_isFile hext]
    exact hf
  obtain ⟨a, b⟩ := h t ht t' ht' hne hf'
  refine ⟨a, fun hf2 => b ?_⟩
  rw [← dirExt_isFile hext]
  exact hf2

/-- C2: when `createGolangProject` returns with nothing logged (every operation succeeded)
and nothing existed at or below the project root before, the regular files under the root
are exactly the eleven of the templates, each holding the rendering of its body, which is
not empty; the eleven paths are the ones listed, pairwise distinct and without `..`. -/
theorem createGolangProject_fresh_root_files (N : String) (w : World)
    (hrun : (createGolangProject N w).isRunning = true)
    (hok : (createGolangProject N w).world.stderr = w.stderr)
    (hfresh : ∀ p, (createGolangProject N w).world.cwd <+: p → w.fs p = none) :
    (∀ rel, (∃ c, (createGolangProject N w).world.fs
          ((createGolangProject N w).world.cwd ++ rel) = some (Node.file c)) ↔
        rel ∈ golangFiles.map (fun e => e.1)) ∧
    (∀ e ∈ golangFiles,
      (createGolangProject N w).world.fs ((createGolangProject N w).world.cwd ++ e.1)
          = some (Node.file (substitute e.2 N)) ∧ substitute e.2 N ≠ "") ∧
    golangFiles.map (fun e => e.1) =
      [["go.mod"], ["main.go"], ["server", "server.go"], ["database", "database.go"],
       ["router", "router.go"], ["handler", "handler.go"], ["repository", "repository.go"],
       ["model", "response.go"], ["utils", "api", "error_message.go"],
       ["utils", "loggy", "loggy.go"], ["utils", "environment.go"]] ∧
    (golangFiles.map (fun e => e.1)).Nodup ∧ golangFiles.length = 11 ∧
    ∀ rel ∈ golangFiles.map (fun e => e.1), ".." ∉ rel := by
  obtain ⟨r, _, _, hcd, heq⟩ := createGolangProject_decomp N w hrun
  have hext := mkdirWalk_dirExt (components N) w.fs (startOf w N)
  rw [heq, golangSequence_eq] at hrun hok hfresh ⊢
  have hcwd := runItems_cwd (golangItems N) (golangItems_spec N)
    ⟨(mkdirWalk w.fs (startOf w N) (components N)).1, r, w.stderr, w.links⟩
  have hfr := runItems_frame (golangItems N) (golangItems_spec N)
    ⟨(mkdirWalk w.fs (startOf w N) (components N)).1, r, w.stderr, w.links⟩
  simp only at hcwd hfr
  rw [hcwd] at hfresh ⊢
  have hnofile : ∀ p, r <+: p →
      isFile ((mkdirWalk w.fs (startOf w N) (components N)).1 p) = false := by
    intro p hp
    rw [dirExt_isFile hext, hfresh p hp]
    rfl
  have hmade := runItems_success (golangItems N) (golangItems_spec N)
    (by rw [golangItems_targets]; exact golangFiles_nodup)
    (golangFiles.map (fun e => e.1))
    ⟨(mkdirWalk w.fs (startOf w N) (components N)).1, r, w.stderr, w.links⟩
    (golangItems_mem_targets N)
    (apart_of_no_files _ _ _ (fun t _ => hnofile _ (List.prefix_append _ _))) hrun hok
  simp only at hmade
  refine ⟨fun rel => ⟨?_, ?_⟩, fun e he => ⟨(made_files N r _ hmade e he).1, ?_⟩, rfl,
    golangFiles_nodup, rfl, by decide⟩
  · rintro ⟨c, hc⟩
    have hfc : isFile ((runSteps (itemSteps (golangItems N))
        ⟨(mkdirWalk w.fs (startOf w N) (components N)).1, r, w.stderr, w.links⟩).world.fs
        (r ++ rel)) = true := by
      rw [hc]
      rfl
    rcases hfr.fileFrom (r ++ rel) hfc with h' | ⟨e, he, hp⟩
    · rw [hnofile _ (List.prefix_append _ _)] at h'
      cases h'
    · rw [golangItems_files] at he
      obtain ⟨e', he', rfl⟩ := List.mem_map.1 he
      have : rel = e'.1 := by simpa using hp
      rw [this]
      exact List.mem_map.2 ⟨e', he', rfl⟩
  · intro hrel
    obtain ⟨e, he, rfl⟩ := List.mem_map.1 hrel
    exact ⟨_, (made_files N r _ hmade e he).1⟩
  · apply substitute_ne_empty
    rw [← golangFiles_bodies]
    exact List.mem_map.2 ⟨e, he, rfl⟩

/-- C2 at an input: the project `demo` made in a tree that holds the root directory only. -/
theorem createGolangProject_fresh_root_files_witness :
    (createGolangProject "demo" emptyRoot).isRunning = true ∧
    (createGolangProject "demo" emptyRoot).world.stderr = emptyRoot.stderr ∧
    (∀ p, (createGolangProject "demo" emptyRoot).world.cwd <+: p → emptyRoot.fs p = none) ∧
    (∀ rel, (∃ c, (createGolangProject "demo" emptyRoot).world.fs
          ((createGolangProject "demo" emptyRoot).world.cwd ++ rel) = some (Node.file c)) ↔
        rel ∈ golangFiles.map (fun e => e.1)) :=
  have hrun : (createGolangProject "demo" emptyRoot).isRunning = true := by decide!
  have hok : (createGolangProject "demo" emptyRoot).world.stderr = emptyRoot.stderr := by
    decide!
  have hcwd : (createGolangProject "demo" emptyRoot).world.cwd = ["demo"] := by decide!
  have hfresh : ∀ p, (createGolangProject "demo" emptyRoot).world.cwd <+: p →
      emptyRoot.fs p = none := by
    intro p hp
    rw [hcwd] at hp
    have hne : p ≠ [] := by
      rintro rfl
      simp at hp
    simp [emptyRoot, hne]
  ⟨hrun, hok, hfresh,
    (createGolangProject_fresh_root_files "demo" emptyRoot hrun hok hfresh).1⟩

/-- C5, the claim refuted at an input: in the project directory `demo` the names `go.mod`
and `main.go` are one file (a hard link).  Every operation succeeds, and after the run
`go.mod` holds the body of `main.go`, which was written last through the other name, not
the rendering of its own template. -/
theorem createGolangProject_linked_targets_share_content :
    (createGolangProject "demo" linkedWorld).isRunning = true ∧
    (createGolangProject "demo" linkedWorld).world.stderr = linkedWorld.stderr ∧
    (createGolangProject "demo" linkedWorld).world.cwd = ["demo"] ∧
    (createGolangProject "demo" linkedWorld).world.fs ["demo", "go.mod"]
      = some (Node.file mainGoStr) ∧
    (createGolangProject "demo" linkedWorld).world.fs ["demo", "go.mod"]
      ≠ some (Node.file (substitute gomodStr "demo")) := by
  decide!

/-- C5 as amended: when `createGolangProject` returns with nothing logged, whatever the
tree held before, provided no two of the eleven target paths were names of the same file:
the root is the directory the name leads to from the starting directory, each of the
eleven target paths under it holds exactly the freshly rendered content, and a second run
from the same starting directory returns with nothing logged and leaves the world of the
first run. -/
theorem createGolangProject_overwrites_apart (N : String) (w : World)
    (hrun : (createGolangProject N w).isRunning = true)
    (hok : (createGolangProject N w).world.stderr = w.stderr)
    (hapart : Apart (golangFiles.map (fun e => e.1)) (createGolangProject N w).world.cwd w) :
    walkDirs (createGolangProject N w).world.fs (startOf w N) (components N)
      = some (createGolangProject N w).world.cwd ∧
    (∀ e ∈ golangFiles,
      (createGolangProject N w).world.fs ((createGolangProject N w).world.cwd ++ e.1)
          = some (Node.file (substitute e.2 N))) ∧
    createGolangProject N { (createGolangProject N w).world with cwd := w.cwd }
      = Outcome.running (createGolangProject N w).world := by
  obtain ⟨r, hN, hmk, hcd, heq⟩ := createGolangProject_decomp N w hrun
  have hext := mkdirWalk_dirExt (components N) w.fs (startOf w N)
  rw [heq, golangSequence_eq] at hrun hok hapart ⊢
  have hcwd := runItems_cwd (golangItems N) (golangItems_spec N)
    ⟨(mkdirWalk w.fs (startOf w N) (components N)).1, r, w.stderr, w.links⟩
  have hfr := runItems_frame (golangItems N) (golangItems_spec N)
    ⟨(mkdirWalk w.fs (startOf w N) (components N)).1, r, w.stderr, w.links⟩
  simp only at hcwd hfr
  rw [hcwd] at hapart
  have hmade := runItems_success (golangItems N) (golangItems_spec N)
    (by rw [golangItems_targets]; exact golangFiles_nodup)
    (golangFiles.map (fun e => e.1))
    ⟨(mkdirWalk w.fs (startOf w N) (components N)).1, r, w.stderr, w.links⟩
    (golangItems_mem_targets N) (apart_mkdir _ _ _ _ hext hapart r) hrun hok
  simp only at hmade
  have hdirs : ∀ p, (mkdirWalk w.fs (startOf w N) (components N)).1 p = some Node.dir →
      (runSteps (itemSteps (golangItems N))
        ⟨(mkdirWalk w.fs (startOf w N) (components N)).1, r, w.stderr, w.links⟩).world.fs p
        = some Node.dir := fun p hp => hfr.dirStays p hp
  have hre := createGolangProject_rerun N w
    (runSteps (itemSteps (golangItems N))
      ⟨(mkdirWalk w.fs (startOf w N) (components N)).1, r, w.stderr, w.links⟩).world
    hN hmk (by rw [hcwd]; exact hcd) hdirs (by rw [hcwd]; exact hmade)
  rw [hcwd]
  exact ⟨walkDirs_mono _ _ hdirs _ _ _ hcd, fun e he => (made_files N r _ hmade e he).1, hre⟩

theorem apart_of_no_links (T : List (List String)) (r : Path) (w : World)
    (h : ∀ p, w.links p = []) : Apart T r w := by
  intro t _ t' _ _ _
  rw [h]
  exact ⟨by simp, fun _ q hq => by cases hq⟩

/-- C5 as amended, at an input: the project `demo` made from the root directory where
`demo/go.mod` holds other content and is one file with `go.bak` of the root directory (a hard
link that is none of the eleven targets); the run ends in `demo` and the file at
`demo/go.mod` is overwritten with the rendered body. -/
theorem createGolangProject_overwrites_apart_witness :
    (createGolangProject "demo" mirroredWorld).isRunning = true ∧
    (createGolangProject "demo" mirroredWorld).world.stderr = mirroredWorld.stderr ∧
    Apart (golangFiles.map (fun e => e.1)) (createGolangProject "demo" mirroredWorld).world.cwd
      mirroredWorld ∧
    (createGolangProject "demo" mirroredWorld).world.cwd = ["demo"] ∧
    mirroredWorld.fs ["demo", "go.mod"] = some (Node.file "module old\n\nrequire ()\n") ∧
    (createGolangProject "demo" mirroredWorld).world.fs ["demo", "go.mod"]
      = some (Node.file (substitute gomodStr "demo")) := by
  have hrun : (createGolangProject "demo" mirroredWorld).isRunning = true := by decide!
  have hok : (createGolangProject "demo" mirroredWorld).world.stderr = mirroredWorld.stderr := by
    decide!
  have hcwd : (createGolangProject "demo" mirroredWorld).world.cwd = ["demo"] := by decide!
  have hapart : Apart (golangFiles.map (fun e => e.1))
      (createGolangProject "demo" mirroredWorld).world.cwd mirroredWorld := by
    rw [hcwd]
    unfold Apart
    decide!
  have h := createGolangProject_overwrites_apart "demo" mirroredWorld hrun hok hapart
  have hfile := h.2.1 (["go.mod"], gomodStr) (List.mem_cons_self _ _)
  rw [hcwd] at hfile
  simp only [List.cons_append, List.nil_append] at hfile
  exact ⟨hrun, hok, hapart, hcwd, by decide, hfile⟩


theorem feasibleCheck_take (Dall Tall : List (List String)) :
    ∀ (l : List (List String × List String)) (K : List (List String)) (k : Nat),
      feasibleCheck Dall Tall K l = true → feasibleCheck Dall Tall K (l.take k) = true
  | [], _, k, _ => by simp [feasibleCheck]
  | _ :: _, _, 0, _ => by simp [feasibleCheck]
  | (ds, t) :: l, K, k + 1, h => by
    simp only [feasibleCheck, Bool.and_eq_true] at h
    simp only [List.take_succ_cons, feasibleCheck, Bool.and_eq_true]
    exact ⟨h.1, feasibleCheck_take Dall Tall l _ k h.2⟩

theorem golang_feasible (N : String) :
    feasibleCheck golangDall (golangFiles.map (fun e => e.1)) []
      ((golangItems N).map (fun i => (i.ds, i.t))) = true := by
  have h : (golangItems N).map (fun i => (i.ds, i.t))
      = List.zip golangDirs (golangFiles.map (fun e => e.1)) := rfl
  rw [h]
  decide

theorem known_fresh (w : World) (hroot : w.fs w.cwd = some Node.dir)
    (hempty : ∀ rel, rel ≠ [] → w.fs (w.cwd ++ rel) = none) :
    Known golangDall (golangFiles.map (fun e => e.1)) [] w.cwd w.fs := by
  refine ⟨hroot, fun d hd => (by cases hd), fun d hd => ?_, fun d c hd => ?_⟩
  · by_cases hn : d = []
    · subst hn
      decide
    · rw [hempty d hn] at hd
      cases hd
  · by_cases hn : d = []
    · subst hn
      rw [List.append_nil, hroot] at hd
      cases hd
    · rw [hempty d hn] at hd
      cases hd

theorem golang_prefix_ok (N : String) (k : Nat) (w : World)
    (hroot : w.fs w.cwd = some Node.dir)
    (hempty : ∀ rel, rel ≠ [] → w.fs (w.cwd ++ rel) = none) :
    (runSteps ((golangSteps N).take k) w).isRunning = true ∧
      (runSteps ((golangSteps N).take k) w).world.stderr = w.stderr := by
  have h1 : (golangSteps N).take k = itemSteps ((golangItems N).take k) := by
    rw [golangSteps_eq, itemSteps, itemSteps, List.map_take]
  rw [h1]
  refine runItems_feasible golangDall (golangFiles.map (fun e => e.1)) _ [] w
    (fun i hi => golangItems_spec N i (List.mem_of_mem_take hi)) ?_ (known_fresh w hroot hempty)
  rw [List.map_take]
  exact feasibleCheck_take _ _ _ _ k (golang_feasible N)

theorem golang_prefix_frame (N : String) (k : Nat) (w : World) :
    Frame w.cwd (itemDirs ((golangItems N).take k)) (itemFiles ((golangItems N).take k)) w.fs
      (runSteps ((golangSteps N).take k) w).world.fs := by
  have h1 : (golangSteps N).take k = itemSteps ((golangItems N).take k) := by
    rw [golangSteps_eq, itemSteps, itemSteps, List.map_take]
  rw [h1]
  exact runItems_frame _ (fun i hi => golangItems_spec N i (List.mem_of_mem_take hi)) w

theorem golang_prefix_made (N : String) (k : Nat) (w : World)
    (hroot : w.fs w.cwd = some Node.dir)
    (hempty : ∀ rel, rel ≠ [] → w.fs (w.cwd ++ rel) = none) :
    Made ((golangItems N).take k) w.cwd (runSteps ((golangSteps N).take k) w).world := by
  have h := golang_prefix_ok N k w hroot hempty
  have h1 : (golangSteps N).take k = itemSteps ((golangItems N).take k) := by
    rw [golangSteps_eq, itemSteps, itemSteps, List.map_take]
  rw [h1] at h ⊢
  refine runItems_success _ (fun i hi => golangItems_spec N i (List.mem_of_mem_take hi)) ?_
    (golangFiles.map (fun e => e.1)) w
    (fun i hi => golangItems_mem_targets N i (List.mem_of_mem_take hi))
    (apart_of_no_files _ _ _ (fun t ht => ?_)) h.1 h.2
  · rw [List.map_take, golangItems_targets]
    exact (List.take_sublist _ _).nodup golangFiles_nodup
  · have hne : t ≠ [] := by
      rintro rfl
      revert ht
      decide
    rw [hempty t hne]
    rfl

theorem envFile_rel : RelFile "./utils/environment.go" ["utils", "environment.go"] = true := by
  decide!

/-- C9: in a project root that is an empty directory, every prefix of the eleven creator
calls returns with nothing logged, so no file creation fails, and at the end each of the
eleven files exists with its parent directory.  `createEnvGoFile` makes no directory:
run first in that root, or after the eight calls that precede `createAPIGoFile`, it cannot
create its file, as `utils` does not exist; `createAPIGoFile` makes `utils` and `utils/api`,
`createLoggyGoFile` makes `utils/loggy`, and after the ten calls that precede it
`createEnvGoFile` can create `utils/environment.go`. -/
theorem golangSequence_in_fresh_root (N : String) (w : World)
    (hroot : w.fs w.cwd = some Node.dir)
    (hempty : ∀ rel, rel ≠ [] → w.fs (w.cwd ++ rel) = none) :
    (∀ k, (runSteps ((golangSteps N).take k) w).isRunning = true ∧
      (runSteps ((golangSteps N).take k) w).world.stderr = w.stderr) ∧
    (golangSequence N w).isRunning = true ∧ (golangSequence N w).world.stderr = w.stderr ∧
    (∀ e ∈ golangFiles,
      (golangSequence N w).world.fs (w.cwd ++ e.1) = some (Node.file (substitute e.2 N)) ∧
      (golangSequence N w).world.fs (w.cwd ++ e.1.dropLast) = some Node.dir) ∧
    createTarget "./utils/environment.go" w = none ∧
    (createEnvGoFile N w).world.stderr = w.stderr ++ ["create file: ./utils/environment.go"] ∧
    (runSteps ((golangSteps N).take 8) w).world.fs (w.cwd ++ ["utils"]) = none ∧
    createTarget "./utils/environment.go" (runSteps ((golangSteps N).take 8) w).world = none ∧
    (runSteps ((golangSteps N).take 9) w).world.fs (w.cwd ++ ["utils"]) = some Node.dir ∧
    (runSteps ((golangSteps N).take 9) w).world.fs (w.cwd ++ ["utils", "api"])
      = some Node.dir ∧
    (runSteps ((golangSteps N).take 10) w).world.fs (w.cwd ++ ["utils", "loggy"])
      = some Node.dir ∧
    createTarget "./utils/environment.go" (runSteps ((golangSteps N).take 10) w).world
      = some (w.cwd ++ ["utils", "environment.go"]) := by
  have hall : runSteps ((golangSteps N).take 11) w = golangSequence N w := by
    rw [golangSequence_eq, ← golangSteps_eq]
    rfl
  have hcwd : ∀ k, (runSteps ((golangSteps N).take k) w).world.cwd = w.cwd := by
    intro k
    have h1 : (golangSteps N).take k = itemSteps ((golangItems N).take k) := by
      rw [golangSteps_eq, itemSteps, itemSteps, List.map_take]
    rw [h1]
    exact runItems_cwd _ (fun i hi => golangItems_spec N i (List.mem_of_mem_take hi)) w
  have hnone : w.fs (w.cwd ++ ["utils"]) = none := hempty _ (by simp)
  have hfail : ∀ v : World, v.cwd = w.cwd → v.fs (w.cwd ++ ["utils"]) = none →
      createTarget "./utils/environment.go" v = none := by
    intro v hv hu
    cases hc : createTarget "./utils/environment.go" v with
    | none => rfl
    | some f =>
      have := ((createTarget_rel _ _ envFile_rel v f).1 hc).2.1 ["utils"] (by decide)
      rw [hv, hu] at this
      cases this
  have h8 : (runSteps ((golangSteps N).take 8) w).world.fs (w.cwd ++ ["utils"]) = none := by
    rcases golang_prefix_frame N 8 w (w.cwd ++ ["utils"]) with h | ⟨_, _, d, hd, he⟩ |
      ⟨_, _, e, he, hp⟩ | ⟨hf, _⟩
    · rw [h, hnone]
    · exfalso
      have hd' : d = ["utils"] := by simpa using he.symm
      subst hd'
      simp [golangItems, itemDirs, List.inits] at hd
    · exfalso
      have hd' : e.1 = ["utils"] := by simpa using hp.symm
      simp [golangItems, itemFiles] at he
      rcases he with rfl | rfl | rfl | rfl | rfl | rfl | rfl | rfl <;> simp at hd'
    · rw [hnone] at hf
      cases hf
  have hm9 := golang_prefix_made N 9 w hroot hempty
    ⟨createAPIGoFile N, ["utils", "api"], ["utils", "api", "error_message.go"],
      substitute apiGoStr N⟩ (by simp [golangItems])
  have hm10 := golang_prefix_made N 10 w hroot hempty
    ⟨createLoggyGoFile N, ["utils", "loggy"], ["utils", "loggy", "loggy.go"],
      substitute loggyGoStr N⟩ (by simp [golangItems])
  have hm11 := golang_prefix_made N 11 w hroot hempty
  have hok11 := golang_prefix_ok N 11 w hroot hempty
  rw [hall] at hm11 hok11
  refine ⟨fun k => golang_prefix_ok N k w hroot hempty, hok11.1, hok11.2, fun e he => ?_,
    hfail w rfl hnone, ?_, h8, hfail _ (hcwd 8) h8, hm9.2.1 ["utils"] (by simp),
    hm9.2.1 ["utils", "api"] (by simp), hm10.2.1 ["utils", "loggy"] (by simp), ?_⟩
  · have hmf := made_files N w.cwd _ hm11 e he
    exact ⟨hmf.1, hmf.2 _ (List.prefix_refl _)⟩
  · unfold createEnvGoFile
    rw [createFile_fail _ _ _ _ (hfail w rfl hnone)]
    rfl
  · apply (createTarget_rel _ _ envFile_rel _ _).2
    rw [hcwd 10]
    refine ⟨rfl, fun d hd => ?_, ?_⟩
    · have hd' : d = [] ∨ d = ["utils"] := by
        rcases List.prefix_cons_iff.1 hd with h | ⟨t, rfl, ht⟩
        · exact Or.inl h
        · right
          simpa using ht
      rcases hd' with rfl | rfl
      · exact hm10.2.1 [] (by simp)
      · exact hm10.2.1 ["utils"] (by simp)
    · rcases golang_prefix_frame N 10 w (w.cwd ++ ["utils", "environment.go"]) with
        h | ⟨_, _, d, hd, he⟩ | ⟨_, hf, _⟩ | ⟨_, hf⟩
      · rw [h, hempty _ (by simp)]
        simp
      · exfalso
        have hd' : d = ["utils", "environment.go"] := by simpa using he.symm
        subst hd'
        simp [golangItems, itemDirs, List.inits] at hd
      · exact ne_dir_of_isFile hf
      · exact ne_dir_of_isFile hf

/-- C9 at an input: the eleven creators run in the new, empty project directory `demo`. -/
theorem golangSequence_in_fresh_root_witness :
    freshRoot.fs freshRoot.cwd = some Node.dir ∧
    (∀ rel, rel ≠ [] → freshRoot.fs (freshRoot.cwd ++ rel) = none) ∧
    (golangSequence "demo" freshRoot).isRunning = true ∧
    (golangSequence "demo" freshRoot).world.stderr = freshRoot.stderr ∧
    createTarget "./utils/environment.go" freshRoot = none :=
  have hempty : ∀ rel, rel ≠ [] → freshRoot.fs (freshRoot.cwd ++ rel) = none := by
    intro rel hrel
    cases rel with
    | nil => exact absurd rfl hrel
    | cons a rel => simp [freshRoot]
  ⟨by decide, hempty,
    (golangSequence_in_fresh_root "demo" freshRoot (by decide) hempty).2.1,
    (golangSequence_in_fresh_root "demo" freshRoot (by decide) hempty).2.2.1,
    (golangSequence_in_fresh_root "demo" freshRoot (by decide) hempty).2.2.2.2.1⟩

end Atlas
